import Mathlib

/-!
Shallow embedding of the kyadb storage core (record, page, file layers) and
verification of its specified properties.

Conventions of the embedding:
* Go byte slices (`[]byte`, `Record`) are `List Nat` with every stored byte
  reduced modulo 256 on write.  An out-of-range element write is a no-op
  (`List.set` semantics); in Go such a write panics, so any behaviour this
  embedding exhibits past an out-of-range write corresponds to no successful
  Go execution.
* The fixed 8192-byte page array is a total function `Nat → Nat`; reads reduce
  modulo 256.
* Go `uint16`/`uint32` arithmetic is `Nat` arithmetic with explicit `% 65536`
  (resp. `% 4294967296`) wherever the Go expression has the machine type; this
  includes the byte indices `offset+k` of the record writers, which wrap.
* A Go slice expression `(*r)[lo:hi]` with `uint16` bounds panics at run time
  when the wrapped bounds are inverted or exceed the buffer; the operations
  built on such slices (`recGetU32`, `recGetU64`, `writeString` and everything
  reaching them) return `Option` values, with `none` standing for that panic:
  no successful Go execution corresponds to a `none` result.
* `float32`/`float64`/`time.Time` values are represented by their bit patterns
  (`math.Float32bits` / `UnixNano` images), which the Go code stores and
  returns unchanged, so the representation is exact.
-/

namespace Kyadb

/-- Read one byte of a byte list; Go reads of in-range indices always see a
value below 256, which the `% 256` enforces for arbitrary lists. -/
def recGetByte (r : List Nat) (i : Nat) : Nat := r.getD i 0 % 256

/-- Write one byte of a byte list, reducing the value modulo 256 as Go's
`byte(v)` conversion does. -/
def recSetByte (r : List Nat) (i : Nat) (v : Nat) : List Nat := r.set i (v % 256)

/-- Little-endian 16-bit read, as `binary.LittleEndian.Uint16`. -/
def recGetU16 (r : List Nat) (i : Nat) : Nat :=
  recGetByte r i + 256 * recGetByte r (i + 1)

/-- Little-endian 16-bit write, as `binary.LittleEndian.PutUint16`. -/
def recPutU16 (r : List Nat) (i : Nat) (v : Nat) : List Nat :=
  recSetByte (recSetByte r i v) (i + 1) (v / 256)

/-- Embeds `binary.LittleEndian.Uint32((*r)[offset : offset+4])`.  The
slice's high bound `offset+4` is `uint16` arithmetic; `none` models the
run-time panic Go raises when the wrapped bounds are inverted or exceed the
buffer. -/
def recGetU32 (r : List Nat) (i : Nat) : Option Nat :=
  if i ≤ (i + 4) % 65536 ∧ (i + 4) % 65536 ≤ r.length then
    some (recGetByte r i + 256 * recGetByte r (i + 1) + 65536 * recGetByte r (i + 2) +
      16777216 * recGetByte r (i + 3))
  else none

/-- Embeds `binary.LittleEndian.Uint64((*r)[offset : offset+8])`; the high
bound `offset+8` wraps in `uint16` and `none` models the panic as for
`recGetU32`. -/
def recGetU64 (r : List Nat) (i : Nat) : Option Nat :=
  if i ≤ (i + 8) % 65536 ∧ (i + 8) % 65536 ≤ r.length then
    some (recGetByte r i + 256 * recGetByte r (i + 1) + 65536 * recGetByte r (i + 2) +
      16777216 * recGetByte r (i + 3) + 4294967296 * recGetByte r (i + 4) +
      1099511627776 * recGetByte r (i + 5) + 281474976710656 * recGetByte r (i + 6) +
      72057594037927936 * recGetByte r (i + 7))
  else none

/-- Embeds `Record.writeUint32`: four byte stores of the shifted value at the
`uint16`-wrapped indices `offset`, `offset+1`, `offset+2`, `offset+3`. -/
def writeUint32 (r : List Nat) (off : Nat) (v : Nat) : List Nat :=
  recSetByte (recSetByte (recSetByte (recSetByte r off v) ((off + 1) % 65536) (v / 256))
    ((off + 2) % 65536) (v / 65536)) ((off + 3) % 65536) (v / 16777216)

/-- Embeds `Record.writeUint64`: eight byte stores of the shifted value at the
`uint16`-wrapped indices `offset+k`. -/
def writeUint64 (r : List Nat) (off : Nat) (v : Nat) : List Nat :=
  recSetByte (recSetByte (recSetByte (recSetByte (recSetByte (recSetByte
    (recSetByte (recSetByte r off v) ((off + 1) % 65536) (v / 256))
    ((off + 2) % 65536) (v / 65536))
    ((off + 3) % 65536) (v / 16777216)) ((off + 4) % 65536) (v / 4294967296))
    ((off + 5) % 65536) (v / 1099511627776)) ((off + 6) % 65536) (v / 281474976710656))
    ((off + 7) % 65536) (v / 72057594037927936)

/-- Embeds `Record.writeBool`. -/
def writeBool (r : List Nat) (off : Nat) (v : Bool) : List Nat :=
  recSetByte r off (if v then 1 else 0)

/-- Sequential byte copy, as Go's `copy` into a slice of the record starting at
`off` (element stores past the end of the list are no-ops; Go would panic). -/
def recCopy (r : List Nat) (off : Nat) : List Nat → List Nat
  | [] => r
  | b :: bs => recCopy (recSetByte r off b) (off + 1) bs

/-- Embeds `Record.writeString`: two byte stores of the wrapping
`uint16(len(value))` length prefix at the `uint16`-wrapped indices `offset`
and `offset+1`, then Go's `copy((*r)[offset+2 : offset+2+strLen], value)`.
The copy's slice bounds are `uint16` arithmetic; `none` models the run-time
panic Go raises when the wrapped bounds are inverted or exceed the buffer.
When the bounds are legal their difference is exactly `strLen`, so the copy
moves the first `strLen` bytes of the value.  The two prefix stores follow
the file's out-of-range no-op convention: an execution past an out-of-range
prefix store corresponds to no successful Go execution. -/
def writeString (r : List Nat) (off : Nat) (s : List Nat) : Option (List Nat) :=
  let strLen := s.length % 65536
  if (off + 2) % 65536 ≤ (off + 2 + strLen) % 65536 ∧
      (off + 2 + strLen) % 65536 ≤ r.length then
    some (recCopy (recSetByte (recSetByte r off strLen) ((off + 1) % 65536)
      (strLen / 256)) ((off + 2) % 65536) (s.take strLen))
  else none

/-- Embeds `Record.readString`: reads the 2-byte length prefix, then that many
bytes.  The returned bytes are exactly the Go slice
`(*r)[offset+2 : offset+2+strLen]`, written here positionally. -/
def readString (r : List Nat) (off : Nat) : List Nat × Nat :=
  let strLen := recGetU16 r off
  ((List.range strLen).map (fun t => recGetByte r (off + 2 + t)), strLen)

/-! ### Record layer (src/internal/storage/record.go) -/

/-- Element type byte constants from record.go. -/
def NullType : Nat := 0
def Uint32Type : Nat := 117
def Uint64Type : Nat := 118
def Int32Type : Nat := 105
def Int64Type : Nat := 108
def Float32Type : Nat := 102
def Float64Type : Nat := 100
def BoolType : Nat := 98
def StringType : Nat := 115
def TimeType : Nat := 116
def ArrayType : Nat := 97
def MapType : Nat := 109

/-- Errors surfaced by record operations.  `WriteOverflowError`'s `data` field
carries the offending value only for message formatting and is omitted; the
wrapping labels on `SetMap` type mismatches are likewise dropped. -/
inductive RecordError where
  | writeOverflow (availableBytes requiredBytes : Nat)
  | typeMismatch (expected actual : Nat)
  | invalidElementType (t : Nat)
  | invalidKeyType (t : Nat)
  | invalidValueType (t : Nat)
  | unsupportedPrimitive
  deriving DecidableEq, Repr

/-- Embeds `NewRecord`: header length `2 + 2N`, total length `4 + 2N`, all
offsets zero (null).  Both sizes are Go `uint16` expressions. -/
def NewRecord (numElements : Nat) : List Nat :=
  let headerLength := (2 + 2 * (numElements % 65536)) % 65536
  let length := (2 + headerLength) % 65536
  recPutU16 (recPutU16 (List.replicate length 0) 0 length) 2 headerLength

/-- Embeds `Record.Length`: the stored 2-byte length field. -/
def recLength (r : List Nat) : Nat := recGetU16 r 0

/-- Embeds `Record.setLength`. -/
def setLength (r : List Nat) (v : Nat) : List Nat := recPutU16 r 0 v

/-- Embeds `Record.offsetForPosition`; the index expression `4 + 2*position`
is Go `uint16` arithmetic. -/
def offsetForPosition (r : List Nat) (p : Nat) : Nat :=
  recGetU16 r ((4 + 2 * (p % 65536)) % 65536)

/-- Embeds `Record.setOffset`. -/
def setOffset (r : List Nat) (p : Nat) (off : Nat) : List Nat :=
  recPutU16 r ((4 + 2 * (p % 65536)) % 65536) off

/-- Embeds `Record.SetUint32`:  on a null position, reserve four fresh bytes at
the tail and record the new offset and length; then write in place. -/
def SetUint32 (r : List Nat) (p : Nat) (v : Nat) : List Nat :=
  let off := offsetForPosition r p
  if off = 0 then
    let off := recLength r
    let r := setLength r ((off + 4) % 65536)
    let r := setOffset r p off
    let r := r ++ List.replicate 4 0
    writeUint32 r off v
  else
    writeUint32 r off v

/-- Embeds `Record.SetUint64`. -/
def SetUint64 (r : List Nat) (p : Nat) (v : Nat) : List Nat :=
  let off := offsetForPosition r p
  if off = 0 then
    let off := recLength r
    let r := setLength r ((off + 8) % 65536)
    let r := setOffset r p off
    let r := r ++ List.replicate 8 0
    writeUint64 r off v
  else
    writeUint64 r off v

/-- Go `uint32(v)` on a signed value. -/
def toUint32 (v : Int) : Nat := (v % 4294967296).toNat

/-- Go `uint64(v)` on a signed value. -/
def toUint64 (v : Int) : Nat := (v % 18446744073709551616).toNat

/-- Go `int32(n)` on an unsigned 32-bit value. -/
def toInt32 (n : Nat) : Int :=
  if n % 4294967296 < 2147483648 then (n % 4294967296 : Int)
  else (n % 4294967296 : Int) - 4294967296

/-- Go `int64(n)` on an unsigned 64-bit value. -/
def toInt64 (n : Nat) : Int :=
  if n % 18446744073709551616 < 9223372036854775808 then (n % 18446744073709551616 : Int)
  else (n % 18446744073709551616 : Int) - 18446744073709551616

/-- Embeds `Record.SetInt32`, which delegates to `SetUint32`. -/
def SetInt32 (r : List Nat) (p : Nat) (v : Int) : List Nat :=
  SetUint32 r p (toUint32 v)

/-- Embeds `Record.SetInt64`, which delegates to `SetUint64`. -/
def SetInt64 (r : List Nat) (p : Nat) (v : Int) : List Nat :=
  SetUint64 r p (toUint64 v)

/-- Embeds `Record.SetFloat32`; the float is represented by its
`math.Float32bits` pattern. -/
def SetFloat32 (r : List Nat) (p : Nat) (bits : Nat) : List Nat :=
  SetUint32 r p bits

/-- Embeds `Record.SetFloat64`; the float is represented by its
`math.Float64bits` pattern. -/
def SetFloat64 (r : List Nat) (p : Nat) (bits : Nat) : List Nat :=
  SetUint64 r p bits

/-- Embeds `Record.SetBool`. -/
def SetBool (r : List Nat) (p : Nat) (v : Bool) : List Nat :=
  let off := offsetForPosition r p
  if off = 0 then
    let off := recLength r
    let r := setLength r ((off + 1) % 65536)
    let r := setOffset r p off
    let r := r ++ [0]
    writeBool r off v
  else
    writeBool r off v

/-- Embeds `Record.SetTime`; the time value is represented by its `UnixNano`
count, stored through `SetUint64` as in the source. -/
def SetTime (r : List Nat) (p : Nat) (ns : Int) : List Nat :=
  SetUint64 r p (toUint64 ns)

/-- Embeds `bytesNeededForString`: `uint16(len(str)) + 2` in `uint16`
arithmetic. -/
def bytesNeededForString (s : List Nat) : Nat := (s.length % 65536 + 2) % 65536

/-- Embeds `Record.SetString`.  On a null position the record grows by
`bytesNeededForString` bytes; otherwise the stored length gates an in-place
overwrite, failing with `WriteOverflowError` when the new value is longer.
`none` is the `writeString` copy panic; `some` carries the Go return value. -/
def SetString (r : List Nat) (p : Nat) (s : List Nat) :
    Option (Except RecordError (List Nat)) :=
  let off := offsetForPosition r p
  if off = 0 then
    let off := recLength r
    let numBytes := bytesNeededForString s
    let r1 := r ++ List.replicate numBytes 0
    (writeString r1 off s).map fun r2 =>
      .ok (setLength (setOffset r2 p off) ((off + numBytes) % 65536))
  else
    let currentLength := recGetU16 r off
    let requiredLength := s.length % 65536
    if currentLength < requiredLength then
      some (.error (.writeOverflow currentLength requiredLength))
    else
      (writeString r off s).map fun r2 => .ok r2

/-- Embeds `Record.GetUint32`: `(isNull, value)` with the Go zero value on a
null position; `none` is the slice panic from `recGetU32`. -/
def GetUint32 (r : List Nat) (p : Nat) : Option (Bool × Nat) :=
  let off := offsetForPosition r p
  if off = 0 then some (true, 0) else (recGetU32 r off).map fun v => (false, v)

/-- Embeds `Record.GetUint64`. -/
def GetUint64 (r : List Nat) (p : Nat) : Option (Bool × Nat) :=
  let off := offsetForPosition r p
  if off = 0 then some (true, 0) else (recGetU64 r off).map fun v => (false, v)

/-- Embeds `Record.GetInt32`. -/
def GetInt32 (r : List Nat) (p : Nat) : Option (Bool × Int) :=
  let off := offsetForPosition r p
  if off = 0 then some (true, 0)
  else (recGetU32 r off).map fun v => (false, toInt32 v)

/-- Embeds `Record.GetInt64`. -/
def GetInt64 (r : List Nat) (p : Nat) : Option (Bool × Int) :=
  let off := offsetForPosition r p
  if off = 0 then some (true, 0)
  else (recGetU64 r off).map fun v => (false, toInt64 v)

/-- Embeds `Record.GetFloat32` at the bit-pattern level. -/
def GetFloat32 (r : List Nat) (p : Nat) : Option (Bool × Nat) := GetUint32 r p

/-- Embeds `Record.GetFloat64` at the bit-pattern level. -/
def GetFloat64 (r : List Nat) (p : Nat) : Option (Bool × Nat) := GetUint64 r p

/-- Embeds `Record.GetBool`: the stored byte compared against zero. -/
def GetBool (r : List Nat) (p : Nat) : Bool × Bool :=
  let off := offsetForPosition r p
  if off = 0 then (true, false) else (false, decide (recGetByte r off ≠ 0))

/-- Embeds `Record.GetTime`: `time.Unix(0, int64(bits))`, represented by the
`UnixNano` count. -/
def GetTime (r : List Nat) (p : Nat) : Option (Bool × Int) :=
  let off := offsetForPosition r p
  if off = 0 then some (true, 0)
  else (recGetU64 r off).map fun v => (false, toInt64 v)

/-- Embeds `Record.GetString`. -/
def GetString (r : List Nat) (p : Nat) : Bool × List Nat :=
  let off := offsetForPosition r p
  if off = 0 then (true, []) else (false, (readString r off).1)

/-! ### Composite values (Array and Map, from record.go) -/

/-- The Go `any` values the record codec accepts, one constructor per case of
`writePrimitive`'s type switch.  Floats and times are carried as their bit
patterns (`math.Float32bits` / `math.Float64bits` / `UnixNano`). -/
inductive Value where
  | vuint (n : Nat)
  | vuint32 (n : Nat)
  | vuint64 (n : Nat)
  | vint (n : Int)
  | vint32 (n : Int)
  | vint64 (n : Int)
  | vfloat32 (bits : Nat)
  | vfloat64 (bits : Nat)
  | vbool (b : Bool)
  | vstring (s : List Nat)
  | vtime (ns : Int)
  deriving DecidableEq, Repr

/-- Embeds the `Array` struct; `values = none` is Go's nil slice. -/
structure ArrayV where
  elementType : Nat
  values : Option (List Value)
  deriving DecidableEq, Repr

/-- A Go map value: a primitive, or an `Array` when the map's value type is
the array type. -/
inductive MapVal where
  | prim (v : Value)
  | arr (a : ArrayV)
  deriving DecidableEq, Repr

/-- Embeds the `Map` struct.  Go's `map[any]any` has no iteration order; the
entry list fixes one order, which is sound for every property proved here
(no proved statement depends on the order). -/
structure MapV where
  keyType : Nat
  valueType : Nat
  data : Option (List (Value × MapVal))
  deriving DecidableEq, Repr

/-- Embeds `bytesNeededForPrimitive` (total on this `Value` type, which covers
exactly the primitives the Go switch handles). -/
def bytesNeededForPrimitive : Value → Nat
  | .vbool _ => 1
  | .vuint _ => 4
  | .vuint32 _ => 4
  | .vint _ => 4
  | .vint32 _ => 4
  | .vfloat32 _ => 4
  | .vuint64 _ => 8
  | .vint64 _ => 8
  | .vfloat64 _ => 8
  | .vtime _ => 8
  | .vstring s => bytesNeededForString s

/-- Embeds `bytesNeededForArray`.  The accumulation is Go `uint16` arithmetic;
the `err` the Go function appears to return is always nil (the loop declares a
fresh shadowing `err` with `:=`), so the function is total. -/
def bytesNeededForArray (a : ArrayV) : Nat :=
  ((a.values.getD []).foldl
    (fun acc v => (acc + bytesNeededForPrimitive v) % 65536) 0 + 3) % 65536

/-- The size Go computes for one map value: `bytesNeededForArray` behind an
`value.(Array)` assertion when the value type is array, else
`bytesNeededForPrimitive`.  The mismatched shapes (0 here) panic in Go /
fail in `writeMap`, so no successful write depends on them. -/
def mapValSizeGo (vt : Nat) : MapVal → Nat
  | .arr a => if vt = ArrayType then bytesNeededForArray a else 0
  | .prim v => if vt = ArrayType then 0 else bytesNeededForPrimitive v

/-- Embeds `bytesNeededForMap`, with Go `uint16` accumulation; as for arrays
the shadowed `err` is always nil. -/
def bytesNeededForMap (m : MapV) : Nat :=
  ((m.data.getD []).foldl
    (fun acc e =>
      (acc + (bytesNeededForPrimitive e.1 + mapValSizeGo m.valueType e.2) % 65536)
        % 65536) 0 + 4) % 65536

/-- Embeds `Record.writePrimitive`: check the value's type tag against the
expected element type, write it, and return the `uint16` offset after the
encoding.  A failed check returns `TypeMismatch{expected, actual}`; `none`
propagates the `writeString` copy panic of the string case. -/
def writePrimitive (r : List Nat) (off : Nat) (v : Value) (expected : Nat) :
    Option (Except RecordError (List Nat × Nat)) :=
  match v with
  | .vuint n =>
    if expected = Uint32Type then some (.ok (writeUint32 r off n, (off + 4) % 65536))
    else some (.error (.typeMismatch expected Uint32Type))
  | .vuint32 n =>
    if expected = Uint32Type then some (.ok (writeUint32 r off n, (off + 4) % 65536))
    else some (.error (.typeMismatch expected Uint32Type))
  | .vuint64 n =>
    if expected = Uint64Type then some (.ok (writeUint64 r off n, (off + 8) % 65536))
    else some (.error (.typeMismatch expected Uint64Type))
  | .vint n =>
    if expected = Int32Type then
      some (.ok (writeUint32 r off (toUint32 n), (off + 4) % 65536))
    else some (.error (.typeMismatch expected Int32Type))
  | .vint32 n =>
    if expected = Int32Type then
      some (.ok (writeUint32 r off (toUint32 n), (off + 4) % 65536))
    else some (.error (.typeMismatch expected Int32Type))
  | .vint64 n =>
    if expected = Int64Type then
      some (.ok (writeUint64 r off (toUint64 n), (off + 8) % 65536))
    else some (.error (.typeMismatch expected Int64Type))
  | .vfloat32 bits =>
    if expected = Float32Type then
      some (.ok (writeUint32 r off bits, (off + 4) % 65536))
    else some (.error (.typeMismatch expected Float32Type))
  | .vfloat64 bits =>
    if expected = Float64Type then
      some (.ok (writeUint64 r off bits, (off + 8) % 65536))
    else some (.error (.typeMismatch expected Float64Type))
  | .vbool b =>
    if expected = BoolType then some (.ok (writeBool r off b, (off + 1) % 65536))
    else some (.error (.typeMismatch expected BoolType))
  | .vstring s =>
    if expected = StringType then
      (writeString r off s).map fun r2 =>
        .ok (r2, (off + bytesNeededForString s) % 65536)
    else some (.error (.typeMismatch expected StringType))
  | .vtime ns =>
    if expected = TimeType then
      some (.ok (writeUint64 r off (toUint64 ns), (off + 8) % 65536))
    else some (.error (.typeMismatch expected TimeType))

/-- The element loop of `Record.writeArray`: a returned error aborts the
loop (Go `return offset, err`); `none` propagates a panic. -/
def writeVals (r : List Nat) (off : Nat) (elemType : Nat) :
    List Value → Option (Except RecordError (List Nat × Nat))
  | [] => some (.ok (r, off))
  | v :: vs =>
    match writePrimitive r off v elemType with
    | none => none
    | some (.error e) => some (.error e)
    | some (.ok x) => writeVals x.1 x.2 elemType vs

/-- Embeds `Record.writeArray`: 2-byte element count, 1-byte element type,
then the elements, all at consecutive `uint16` offsets. -/
def writeArr (r : List Nat) (off : Nat) (a : ArrayV) :
    Option (Except RecordError (List Nat × Nat)) :=
  let vs := a.values.getD []
  let r := recSetByte r off vs.length
  let o1 := (off + 1) % 65536
  let r := recSetByte r o1 (vs.length / 256)
  let o2 := (o1 + 1) % 65536
  let r := recSetByte r o2 a.elementType
  let o3 := (o2 + 1) % 65536
  writeVals r o3 a.elementType vs

/-- The entry loop of `Record.writeMap`: write the key, then the value —
through `writeArray` behind a `value.(Array)` assertion when the map's value
type is the array type (a failed assertion panics in Go; here it is an
error), else through `writePrimitive` (which rejects an `Array` value as
unsupported, as the Go switch's default case does). -/
def writeEntries (r : List Nat) (off : Nat) (keyType valueType : Nat) :
    List (Value × MapVal) → Option (Except RecordError (List Nat × Nat))
  | [] => some (.ok (r, off))
  | e :: es =>
    match writePrimitive r off e.1 keyType with
    | none => none
    | some (.error e1) => some (.error e1)
    | some (.ok x) =>
      match (match e.2 with
        | .arr a =>
          if valueType = ArrayType then writeArr x.1 x.2 a
          else some (.error .unsupportedPrimitive)
        | .prim pv =>
          if valueType = ArrayType then some (.error .unsupportedPrimitive)
          else writePrimitive x.1 x.2 pv valueType) with
      | none => none
      | some (.error e1) => some (.error e1)
      | some (.ok y) => writeEntries y.1 y.2 keyType valueType es

/-- Embeds `Record.writeMap`: 2-byte entry count, key type byte, value type
byte, then the entries. -/
def writeMapGo (r : List Nat) (off : Nat) (m : MapV) :
    Option (Except RecordError (List Nat × Nat)) :=
  let es := m.data.getD []
  let r := recSetByte r off es.length
  let o1 := (off + 1) % 65536
  let r := recSetByte r o1 (es.length / 256)
  let o2 := (o1 + 1) % 65536
  let r := recSetByte r o2 m.keyType
  let o3 := (o2 + 1) % 65536
  let r := recSetByte r o3 m.valueType
  let o4 := (o3 + 1) % 65536
  writeEntries r o4 m.keyType m.valueType es

/-- Embeds `Record.SetArray`: element-type validation, the nil-values no-op,
then the null-position append path or the gated in-place overwrite. -/
def SetArray (r : List Nat) (p : Nat) (a : ArrayV) :
    Option (Except RecordError (List Nat)) :=
  if a.elementType = ArrayType then some (.error (.invalidElementType a.elementType))
  else if a.elementType = MapType then some (.error (.invalidElementType a.elementType))
  else match a.values with
  | none => some (.ok r)
  | some vs =>
    let off := offsetForPosition r p
    if off = 0 then
      let off := recLength r
      let numBytes := bytesNeededForArray a
      let r1 := r ++ List.replicate numBytes 0
      (writeArr r1 off a).map fun e => e.map fun x =>
        setLength (setOffset x.1 p off) ((off + numBytes) % 65536)
    else
      let currentElementType := recGetByte r (off + 2)
      if currentElementType ≠ a.elementType then
        some (.error (.typeMismatch currentElementType a.elementType))
      else
        let currentLength := recGetU16 r off
        let requiredLength := vs.length % 65536
        if currentLength < requiredLength then
          some (.error (.writeOverflow currentLength requiredLength))
        else
          (writeArr r off a).map fun e => e.map fun x => x.1

/-- Embeds `Record.SetMap`: key/value-type validation, the nil-data no-op,
then the null-position append path or the gated in-place overwrite. -/
def SetMap (r : List Nat) (p : Nat) (m : MapV) :
    Option (Except RecordError (List Nat)) :=
  if m.keyType = ArrayType then some (.error (.invalidKeyType m.keyType))
  else if m.keyType = MapType then some (.error (.invalidKeyType m.keyType))
  else if m.valueType = MapType then some (.error (.invalidValueType m.valueType))
  else match m.data with
  | none => some (.ok r)
  | some es =>
    let off := offsetForPosition r p
    if off = 0 then
      let off := recLength r
      let numBytes := bytesNeededForMap m
      let r1 := r ++ List.replicate numBytes 0
      (writeMapGo r1 off m).map fun e => e.map fun x =>
        setLength (setOffset x.1 p off) ((off + numBytes) % 65536)
    else
      let currentKeyType := recGetByte r (off + 2)
      if currentKeyType ≠ m.keyType then
        some (.error (.typeMismatch currentKeyType m.keyType))
      else
        let currentValueType := recGetByte r (off + 3)
        if currentValueType ≠ m.valueType then
          some (.error (.typeMismatch currentValueType m.valueType))
        else
          let currentLength := recGetU16 r off
          let requiredLength := es.length % 65536
          if currentLength < requiredLength then
            some (.error (.writeOverflow currentLength requiredLength))
          else
            (writeMapGo r off m).map fun e => e.map fun x => x.1

/-! ### Page layer (src/unnamed/part_008) -/

/-- A page is the fixed 8192-byte array `[PageSize]byte`, modelled as a total
byte function; reads reduce modulo 256. -/
abbrev Page : Type := Nat → Nat

def PageSize : Nat := 8 * 1024

/-- Errors surfaced by page operations. -/
inductive PageError where
  | pageFull (available needed : Nat)
  | recordDeleted (slotNum : Nat)
  deriving DecidableEq, Repr

/-- Read one page byte. -/
def pgGetByte (p : Page) (i : Nat) : Nat := p i % 256

/-- Write one page byte (`byte(v)` conversion included). -/
def pgSetByte (p : Page) (i : Nat) (v : Nat) : Page :=
  fun j => if j = i then v % 256 else p j

/-- Little-endian 16-bit page write. -/
def pgPutU16 (p : Page) (i : Nat) (v : Nat) : Page :=
  pgSetByte (pgSetByte p i v) (i + 1) (v / 256)

/-- Little-endian 16-bit page read. -/
def pgGetU16 (p : Page) (i : Nat) : Nat :=
  pgGetByte p i + 256 * pgGetByte p (i + 1)

/-- Little-endian 64-bit page write. -/
def pgPutU64 (p : Page) (i : Nat) (v : Nat) : Page :=
  pgSetByte (pgSetByte (pgSetByte (pgSetByte (pgSetByte (pgSetByte (pgSetByte
    (pgSetByte p i v) (i + 1) (v / 256)) (i + 2) (v / 65536))
    (i + 3) (v / 16777216)) (i + 4) (v / 4294967296))
    (i + 5) (v / 1099511627776)) (i + 6) (v / 281474976710656))
    (i + 7) (v / 72057594037927936)

/-- Little-endian 64-bit page read. -/
def pgGetU64 (p : Page) (i : Nat) : Nat :=
  pgGetByte p i + 256 * pgGetByte p (i + 1) + 65536 * pgGetByte p (i + 2) +
    16777216 * pgGetByte p (i + 3) + 4294967296 * pgGetByte p (i + 4) +
    1099511627776 * pgGetByte p (i + 5) + 281474976710656 * pgGetByte p (i + 6) +
    72057594037927936 * pgGetByte p (i + 7)

/-- Go `uint16` subtraction `a - b` for operands below 65536. -/
def u16sub (a b : Nat) : Nat := (a + 65536 - b % 65536) % 65536

/-- Sequential byte copy into a page. -/
def pgCopy (p : Page) (off : Nat) : List Nat → Page
  | [] => p
  | b :: bs => pgCopy (pgSetByte p off b) (off + 1) bs

/-- Embeds `Page.setNumSlots` (little-endian in part_008). -/
def setNumSlots (p : Page) (v : Nat) : Page := pgPutU16 p 0 v

/-- Embeds `Page.getNumSlots`. -/
def getNumSlots (p : Page) : Nat := pgGetU16 p 0

/-- Embeds `Page.setFreeOffset`. -/
def setFreeOffset (p : Page) (v : Nat) : Page := pgPutU16 p 2 v

/-- Embeds `Page.getFreeOffset`. -/
def getFreeOffset (p : Page) : Nat := pgGetU16 p 2

/-- Embeds `Page.addSlot`: store the 8-byte entry at `4 + 8*numSlots` (a Go
`uint16` index expression) and bump `numSlots`. -/
def addSlot (p : Page) (slot : Nat) : Page :=
  let numSlots := getNumSlots p
  setNumSlots (pgPutU64 p ((4 + 8 * numSlots) % 65536) slot) ((numSlots + 1) % 65536)

/-- Embeds `Page.setSlot`. -/
def setSlot (p : Page) (slotNum : Nat) (slot : Nat) : Page :=
  pgPutU64 p ((4 + 8 * (slotNum % 65536)) % 65536) slot

/-- Embeds `Page.getSlot`. -/
def getSlot (p : Page) (slotNum : Nat) : Nat :=
  pgGetU64 p ((4 + 8 * (slotNum % 65536)) % 65536)

/-- The zeroed `Page{}` literal. -/
def pageZero : Page := fun _ => 0

/-- Embeds `NewPage`: zeroed array, `numSlots = 0`, `freeOffset = PageSize`. -/
def NewPage : Page := setFreeOffset (setNumSlots pageZero 0) PageSize

/-- Embeds `Page.AddRecord`.  All offset arithmetic is Go `uint16`; the record
bytes are copied into `page[newOffset:offset]` (a span of `offset - newOffset`
bytes) and the slot entry holding `newOffset` is appended. -/
def AddRecord (p : Page) (r : List Nat) : Except PageError (Nat × Page) :=
  let offset := getFreeOffset p
  let numSlots := getNumSlots p
  let newOffset := u16sub offset (recLength r)
  let headerLength := (4 + 8 * numSlots) % 65536
  let newHeaderEnd := (headerLength + 8) % 65536
  if newOffset < newHeaderEnd then
    .error (.pageFull (u16sub offset newHeaderEnd) (recLength r))
  else
    let p := pgCopy p newOffset (r.take (offset - newOffset))
    let p := addSlot p newOffset
    let p := setFreeOffset p newOffset
    .ok (numSlots, p)

/-- Embeds `Page.DeleteRecord`: write the tombstone value 0 into the slot. -/
def DeleteRecord (p : Page) (slotNum : Nat) : Page := setSlot p slotNum 0

/-- Iterated `AddRecord` of the same record, propagating the first error. -/
def iterAddRecord (p : Page) (r : List Nat) : Nat → Except PageError Page
  | 0 => .ok p
  | k + 1 => (AddRecord p r).bind fun x => iterAddRecord x.2 r k

namespace PageDraft

/-!  The duplicated draft page implementation in
`src/internal/storage/page.go`, whose header and slot accessors use
`binary.BigEndian` instead of `binary.LittleEndian`.  Only the byte-order
primitives differ from part_008. -/

/-- Big-endian 16-bit page write, as `binary.BigEndian.PutUint16`. -/
def pgPutU16BE (p : Page) (i : Nat) (v : Nat) : Page :=
  pgSetByte (pgSetByte p i (v / 256)) (i + 1) v

/-- Big-endian 64-bit page write, as `binary.BigEndian.PutUint64`. -/
def pgPutU64BE (p : Page) (i : Nat) (v : Nat) : Page :=
  pgSetByte (pgSetByte (pgSetByte (pgSetByte (pgSetByte (pgSetByte (pgSetByte
    (pgSetByte p i (v / 72057594037927936)) (i + 1) (v / 281474976710656))
    (i + 2) (v / 1099511627776)) (i + 3) (v / 4294967296))
    (i + 4) (v / 16777216)) (i + 5) (v / 65536)) (i + 6) (v / 256)) (i + 7) v

/-- Embeds the draft `Page.setNumSlots` (big-endian). -/
def setNumSlots (p : Page) (v : Nat) : Page := pgPutU16BE p 0 v

/-- Embeds the draft `Page.setFreeOffset` (big-endian). -/
def setFreeOffset (p : Page) (v : Nat) : Page := pgPutU16BE p 2 v

/-- Embeds the draft `Page.setSlot` (big-endian). -/
def setSlot (p : Page) (slotNum : Nat) (slot : Nat) : Page :=
  pgPutU64BE p ((4 + 8 * (slotNum % 65536)) % 65536) slot

end PageDraft

/-! ### File layer (src/unnamed/part_001) -/

def MaxPagesPerFile : Nat := 256 * 1024

/-- Errors surfaced by the file layer (I/O errors are outside the model; every
modelled write succeeds). -/
inductive FileError where
  | fileFull
  deriving DecidableEq, Repr

/-- The in-memory `DatabaseFile` state: the cached `NumPages` counter and the
sequence of `WriteAt` calls issued so far, each an (offset, bytes) pair.  The
`FileId` and the OS handle play no role in the verified claims. -/
structure DatabaseFile where
  NumPages : Nat
  writes : List (Nat × List Nat)
  deriving DecidableEq, Repr

/-- The body of the `AppendPages` loop: write each page at the running
`uint32` offset, collect `NumPages + uint32(i)` page numbers. -/
def appendLoop (f : DatabaseFile) (offset base i : Nat) :
    List (List Nat) → DatabaseFile × List Nat
  | [] => (f, [])
  | page :: rest =>
    let f := DatabaseFile.mk f.NumPages (f.writes ++ [(offset, page)])
    let r := appendLoop f ((offset + PageSize) % 4294967296) base (i + 1) rest
    (r.1, ((base + i % 4294967296) % 4294967296) :: r.2)

/-- Embeds `DatabaseFile.AppendPages`: guard on `NumPages == MaxPagesPerFile`,
write every page sequentially from `6 + NumPages*PageSize`, then increment
`NumPages` once (the source increments per call, not per page). -/
def AppendPages (f : DatabaseFile) (pages : List (List Nat)) :
    DatabaseFile × List Nat × Option FileError :=
  if f.NumPages = MaxPagesPerFile then
    (f, [], some .fileFull)
  else
    let r := appendLoop f ((6 + f.NumPages * PageSize) % 4294967296) f.NumPages 0 pages
    (DatabaseFile.mk ((r.1.NumPages + 1) % 4294967296) r.1.writes, r.2, none)

/-! ### Basic byte-level lemmas -/

theorem pgGetByte_set_self (p : Page) (i v : Nat) :
    pgGetByte (pgSetByte p i v) i = v % 256 := by
  simp [pgGetByte, pgSetByte]

theorem pgGetByte_set_of_ne (p : Page) (i j v : Nat) (h : j ≠ i) :
    pgGetByte (pgSetByte p i v) j = pgGetByte p j := by
  simp [pgGetByte, pgSetByte, h]

theorem pgCopy_apply_of_lt (l : List Nat) (p : Page) (off j : Nat) (h : j < off) :
    pgCopy p off l j = p j := by
  induction l generalizing p off with
  | nil => rfl
  | cons b bs ih =>
    rw [pgCopy, ih _ _ (by omega)]
    simp [pgSetByte]
    omega

instance {α β : Type} [DecidableEq α] [DecidableEq β] : DecidableEq (Except α β) := fun
  | .ok a, .ok b =>
    if h : a = b then .isTrue (by rw [h]) else .isFalse (by simp [h])
  | .error a, .error b =>
    if h : a = b then .isTrue (by rw [h]) else .isFalse (by simp [h])
  | .ok _, .error _ => .isFalse (by simp)
  | .error _, .ok _ => .isFalse (by simp)

/-! ### Concrete records used by the scenario claims -/

/-- The byte string of the test record payload, namely the ASCII bytes of a
16-character string. -/
def str16 : List Nat :=
  [116, 104, 105, 115, 32, 105, 115, 32, 97, 32, 114, 101, 99, 111, 114, 100]

/-- The 24-byte one-position record holding `str16`, as built by
`NewRecord(1)` followed by `SetString(0, ...)`. -/
def rec24 : List Nat :=
  [24, 0, 4, 0, 6, 0, 16, 0,
   116, 104, 105, 115, 32, 105, 115, 32, 97, 32, 114, 101, 99, 111, 114, 100]

theorem rec24_built : SetString (NewRecord 1) 0 str16 = some (.ok rec24) := by decide

/-- The record produced by `NewRecord(1)` followed by `SetString(0, "hello")`
(bytes 104 101 108 108 111). -/
def recHello : List Nat :=
  [13, 0, 4, 0, 6, 0, 5, 0, 104, 101, 108, 108, 111]

theorem recHello_built :
    SetString (NewRecord 1) 0 [104, 101, 108, 108, 111] = some (.ok recHello) := by
  decide

/-! ### Byte lemmas for the page writers -/

theorem pgPutU16_byte0 (p : Page) (i v : Nat) :
    pgGetByte (pgPutU16 p i v) i = v % 256 := by
  simp only [pgPutU16, pgSetByte, pgGetByte]
  split_ifs <;> first | exact (‹False›).elim | omega

theorem pgPutU16_byte1 (p : Page) (i v : Nat) :
    pgGetByte (pgPutU16 p i v) (i + 1) = v / 256 % 256 := by
  simp only [pgPutU16, pgSetByte, pgGetByte]
  split_ifs <;> first | exact (‹False›).elim | omega

theorem pgPutU64_byte0 (p : Page) (i v : Nat) :
    pgGetByte (pgPutU64 p i v) i = v % 256 := by
  simp only [pgPutU64, pgSetByte, pgGetByte]
  split_ifs <;> first | exact (‹False›).elim | omega

theorem pgPutU64_byte1 (p : Page) (i v : Nat) :
    pgGetByte (pgPutU64 p i v) (i + 1) = v / 256 % 256 := by
  simp only [pgPutU64, pgSetByte, pgGetByte]
  split_ifs <;> first | exact (‹False›).elim | omega

theorem pgPutU64_byte2 (p : Page) (i v : Nat) :
    pgGetByte (pgPutU64 p i v) (i + 2) = v / 65536 % 256 := by
  simp only [pgPutU64, pgSetByte, pgGetByte]
  split_ifs <;> first | exact (‹False›).elim | omega

theorem pgPutU64_byte3 (p : Page) (i v : Nat) :
    pgGetByte (pgPutU64 p i v) (i + 3) = v / 16777216 % 256 := by
  simp only [pgPutU64, pgSetByte, pgGetByte]
  split_ifs <;> first | exact (‹False›).elim | omega

theorem pgPutU64_byte4 (p : Page) (i v : Nat) :
    pgGetByte (pgPutU64 p i v) (i + 4) = v / 4294967296 % 256 := by
  simp only [pgPutU64, pgSetByte, pgGetByte]
  split_ifs <;> first | exact (‹False›).elim | omega

theorem pgPutU64_byte5 (p : Page) (i v : Nat) :
    pgGetByte (pgPutU64 p i v) (i + 5) = v / 1099511627776 % 256 := by
  simp only [pgPutU64, pgSetByte, pgGetByte]
  split_ifs <;> first | exact (‹False›).elim | omega

theorem pgPutU64_byte6 (p : Page) (i v : Nat) :
    pgGetByte (pgPutU64 p i v) (i + 6) = v / 281474976710656 % 256 := by
  simp only [pgPutU64, pgSetByte, pgGetByte]
  split_ifs <;> first | exact (‹False›).elim | omega

theorem pgPutU64_byte7 (p : Page) (i v : Nat) :
    pgGetByte (pgPutU64 p i v) (i + 7) = v / 72057594037927936 % 256 := by
  simp only [pgPutU64, pgSetByte, pgGetByte]
  split_ifs <;> first | exact (‹False›).elim | omega

theorem pgPutU16BE_byte0 (p : Page) (i v : Nat) :
    pgGetByte (PageDraft.pgPutU16BE p i v) i = v / 256 % 256 := by
  simp only [PageDraft.pgPutU16BE, pgSetByte, pgGetByte]
  split_ifs <;> first | exact (‹False›).elim | omega

theorem pgPutU16BE_byte1 (p : Page) (i v : Nat) :
    pgGetByte (PageDraft.pgPutU16BE p i v) (i + 1) = v % 256 := by
  simp only [PageDraft.pgPutU16BE, pgSetByte, pgGetByte]
  split_ifs <;> first | exact (‹False›).elim | omega

theorem pgPutU64BE_byte0 (p : Page) (i v : Nat) :
    pgGetByte (PageDraft.pgPutU64BE p i v) i = v / 72057594037927936 % 256 := by
  simp only [PageDraft.pgPutU64BE, pgSetByte, pgGetByte]
  split_ifs <;> first | exact (‹False›).elim | omega

theorem pgPutU64BE_byte7 (p : Page) (i v : Nat) :
    pgGetByte (PageDraft.pgPutU64BE p i v) (i + 7) = v % 256 := by
  simp only [PageDraft.pgPutU64BE, pgSetByte, pgGetByte]
  split_ifs <;> first | exact (‹False›).elim | omega

/-! ### Byte lemmas for the record writers -/

theorem recSetByte_length (l : List Nat) (i v : Nat) :
    (recSetByte l i v).length = l.length := by
  simp [recSetByte]

theorem recGetByte_set (l : List Nat) (i v j : Nat) :
    recGetByte (recSetByte l i v) j =
      if i = j ∧ i < l.length then v % 256 else recGetByte l j := by
  unfold recGetByte recSetByte
  rw [List.getD_eq_getElem?_getD, List.getElem?_set]
  by_cases h1 : i = j
  · by_cases h2 : i < l.length
    · rw [if_pos h1, if_pos h2, if_pos ⟨h1, h2⟩]
      simp
    · rw [if_pos h1, if_neg h2, if_neg (by tauto)]
      subst h1
      rw [List.getD_eq_getElem?_getD, List.getElem?_eq_none (by omega)]
  · rw [if_neg h1, if_neg (by tauto), List.getD_eq_getElem?_getD]

theorem recGetByte_lt (l : List Nat) (i : Nat) : recGetByte l i < 256 := by
  unfold recGetByte; omega

theorem recGetU16_lt (l : List Nat) (i : Nat) : recGetU16 l i < 65536 := by
  have h0 := recGetByte_lt l i
  have h1 := recGetByte_lt l (i + 1)
  unfold recGetU16
  omega

theorem recGetByte_append_left (l m : List Nat) (j : Nat) (h : j < l.length) :
    recGetByte (l ++ m) j = recGetByte l j := by
  unfold recGetByte
  rw [List.getD_eq_getElem?_getD, List.getD_eq_getElem?_getD,
    List.getElem?_append, if_pos h]

theorem recGetByte_append_right (l m : List Nat) (j : Nat) (h : l.length ≤ j) :
    recGetByte (l ++ m) j = recGetByte m (j - l.length) := by
  unfold recGetByte
  rw [List.getD_eq_getElem?_getD, List.getD_eq_getElem?_getD,
    List.getElem?_append_right h]

theorem recCopy_length (src : List Nat) : ∀ (l : List Nat) (off : Nat),
    (recCopy l off src).length = l.length := by
  induction src with
  | nil => intro l off; rfl
  | cons b bs ih =>
    intro l off
    rw [recCopy, ih]
    simp [recSetByte]

theorem recGetByte_copy_lo (src : List Nat) : ∀ (l : List Nat) (off j : Nat),
    j < off → recGetByte (recCopy l off src) j = recGetByte l j := by
  induction src with
  | nil => intro l off j h; rfl
  | cons b bs ih =>
    intro l off j h
    rw [recCopy, ih _ _ _ (by omega), recGetByte_set, if_neg (by omega)]

theorem recGetByte_copy_in (src : List Nat) : ∀ (l : List Nat) (off t : Nat),
    t < src.length → off + src.length ≤ l.length →
    recGetByte (recCopy l off src) (off + t) = src.getD t 0 % 256 := by
  induction src with
  | nil => intro l off t h _; simp at h
  | cons b bs ih =>
    intro l off t ht hlen
    cases t with
    | zero =>
      rw [recCopy, recGetByte_copy_lo bs _ _ _ (by omega), recGetByte_set]
      rw [if_pos ⟨by omega, by simp at hlen ⊢; omega⟩]
      simp
    | succ t =>
      rw [recCopy, show off + (t + 1) = (off + 1) + t by omega]
      rw [ih _ _ _ (by simpa using ht) (by simp [recSetByte] at hlen ⊢; omega)]
      simp

theorem recCopy_oob (src : List Nat) : ∀ (l : List Nat) (off : Nat),
    l.length ≤ off → recCopy l off src = l := by
  induction src with
  | nil => intro l off h; rfl
  | cons b bs ih =>
    intro l off h
    rw [recCopy, recSetByte, List.set_eq_of_length_le h, ih _ _ (by omega)]

theorem recSetByte_oob (l : List Nat) (i v : Nat) (h : l.length ≤ i) :
    recSetByte l i v = l := List.set_eq_of_length_le h

theorem recGetU16_putU16_self (l : List Nat) (i v : Nat)
    (hi : i + 1 < l.length) (hv : v < 65536) :
    recGetU16 (recPutU16 l i v) i = v := by
  simp only [recGetU16, recPutU16, recGetByte_set, recSetByte_length]
  split_ifs <;> (try simp only [true_and] at *) <;>
    first | exact (‹False›).elim | omega

theorem recGetU16_putU16_disjoint (l : List Nat) (i v j : Nat)
    (h : j + 2 ≤ i ∨ i + 2 ≤ j) :
    recGetU16 (recPutU16 l i v) j = recGetU16 l j := by
  simp only [recGetU16, recPutU16, recGetByte_set, recSetByte_length]
  split_ifs <;> (try simp only [true_and] at *) <;>
    first | exact (‹False›).elim | omega

theorem recGetU16_append_left (l m : List Nat) (j : Nat) (h : j + 2 ≤ l.length) :
    recGetU16 (l ++ m) j = recGetU16 l j := by
  unfold recGetU16
  rw [recGetByte_append_left _ _ _ (by omega), recGetByte_append_left _ _ _ (by omega)]

theorem recGetByte_write32_lo (l : List Nat) (off v j : Nat) (hw : off + 4 ≤ 65536)
    (h : j < off) :
    recGetByte (writeUint32 l off v) j = recGetByte l j := by
  simp only [writeUint32, recGetByte_set, recSetByte_length]
  split_ifs <;> (try simp only [true_and] at *) <;>
    first | exact (‹False›).elim | omega

theorem recGetU16_write32_lo (l : List Nat) (off v j : Nat) (hw : off + 4 ≤ 65536)
    (h : j + 2 ≤ off) :
    recGetU16 (writeUint32 l off v) j = recGetU16 l j := by
  unfold recGetU16
  rw [recGetByte_write32_lo _ _ _ _ hw (by omega),
    recGetByte_write32_lo _ _ _ _ hw (by omega)]

theorem recGetByte_write64_lo (l : List Nat) (off v j : Nat) (hw : off + 8 ≤ 65536)
    (h : j < off) :
    recGetByte (writeUint64 l off v) j = recGetByte l j := by
  unfold writeUint64
  repeat rw [recGetByte_set, if_neg (by omega)]

theorem recGetU16_write64_lo (l : List Nat) (off v j : Nat) (hw : off + 8 ≤ 65536)
    (h : j + 2 ≤ off) :
    recGetU16 (writeUint64 l off v) j = recGetU16 l j := by
  unfold recGetU16
  rw [recGetByte_write64_lo _ _ _ _ hw (by omega),
    recGetByte_write64_lo _ _ _ _ hw (by omega)]

theorem writeUint32_length (l : List Nat) (off v : Nat) :
    (writeUint32 l off v).length = l.length := by
  simp [writeUint32, recSetByte_length]

theorem writeUint64_length (l : List Nat) (off v : Nat) :
    (writeUint64 l off v).length = l.length := by
  simp [writeUint64, recSetByte_length]

theorem recGetByte_write32_at0 (l : List Nat) (off v : Nat) (h : off + 4 ≤ l.length)
    (hw : off + 4 ≤ 65536) :
    recGetByte (writeUint32 l off v) off = v % 256 := by
  unfold writeUint32
  repeat rw [recGetByte_set, if_neg (by omega)]
  rw [recGetByte_set, if_pos ⟨rfl, by (try simp only [recSetByte_length]); omega⟩]

theorem recGetByte_write32_at1 (l : List Nat) (off v : Nat) (h : off + 4 ≤ l.length)
    (hw : off + 4 ≤ 65536) :
    recGetByte (writeUint32 l off v) (off + 1) = v / 256 % 256 := by
  unfold writeUint32
  repeat rw [recGetByte_set, if_neg (by omega)]
  rw [recGetByte_set, if_pos ⟨by omega, by (try simp only [recSetByte_length]); omega⟩]

theorem recGetByte_write32_at2 (l : List Nat) (off v : Nat) (h : off + 4 ≤ l.length)
    (hw : off + 4 ≤ 65536) :
    recGetByte (writeUint32 l off v) (off + 2) = v / 65536 % 256 := by
  unfold writeUint32
  repeat rw [recGetByte_set, if_neg (by omega)]
  rw [recGetByte_set, if_pos ⟨by omega, by (try simp only [recSetByte_length]); omega⟩]

theorem recGetByte_write32_at3 (l : List Nat) (off v : Nat) (h : off + 4 ≤ l.length)
    (hw : off + 4 ≤ 65536) :
    recGetByte (writeUint32 l off v) (off + 3) = v / 16777216 % 256 := by
  unfold writeUint32
  rw [recGetByte_set, if_pos ⟨by omega, by (try simp only [recSetByte_length]); omega⟩]

theorem recGetU32_write32 (l : List Nat) (off v : Nat) (h : off + 4 ≤ l.length)
    (hw : off + 4 ≤ 65535) :
    recGetU32 (writeUint32 l off v) off = some (v % 4294967296) := by
  have h0 := recGetByte_write32_at0 l off v h (by omega)
  have h1 := recGetByte_write32_at1 l off v h (by omega)
  have h2 := recGetByte_write32_at2 l off v h (by omega)
  have h3 := recGetByte_write32_at3 l off v h (by omega)
  unfold recGetU32
  rw [if_pos ⟨by omega, by rw [writeUint32_length]; omega⟩]
  exact congrArg some (by omega)

theorem recGetByte_write64_at0 (l : List Nat) (off v : Nat) (h : off + 8 ≤ l.length)
    (hw : off + 8 ≤ 65536) :
    recGetByte (writeUint64 l off v) off = v % 256 := by
  unfold writeUint64
  repeat rw [recGetByte_set, if_neg (by omega)]
  rw [recGetByte_set, if_pos ⟨rfl, by (try simp only [recSetByte_length]); omega⟩]

theorem recGetByte_write64_at1 (l : List Nat) (off v : Nat) (h : off + 8 ≤ l.length)
    (hw : off + 8 ≤ 65536) :
    recGetByte (writeUint64 l off v) (off + 1) = v / 256 % 256 := by
  unfold writeUint64
  repeat rw [recGetByte_set, if_neg (by omega)]
  rw [recGetByte_set, if_pos ⟨by omega, by (try simp only [recSetByte_length]); omega⟩]

theorem recGetByte_write64_at2 (l : List Nat) (off v : Nat) (h : off + 8 ≤ l.length)
    (hw : off + 8 ≤ 65536) :
    recGetByte (writeUint64 l off v) (off + 2) = v / 65536 % 256 := by
  unfold writeUint64
  repeat rw [recGetByte_set, if_neg (by omega)]
  rw [recGetByte_set, if_pos ⟨by omega, by (try simp only [recSetByte_length]); omega⟩]

theorem recGetByte_write64_at3 (l : List Nat) (off v : Nat) (h : off + 8 ≤ l.length)
    (hw : off + 8 ≤ 65536) :
    recGetByte (writeUint64 l off v) (off + 3) = v / 16777216 % 256 := by
  unfold writeUint64
  repeat rw [recGetByte_set, if_neg (by omega)]
  rw [recGetByte_set, if_pos ⟨by omega, by (try simp only [recSetByte_length]); omega⟩]

theorem recGetByte_write64_at4 (l : List Nat) (off v : Nat) (h : off + 8 ≤ l.length)
    (hw : off + 8 ≤ 65536) :
    recGetByte (writeUint64 l off v) (off + 4) = v / 4294967296 % 256 := by
  unfold writeUint64
  repeat rw [recGetByte_set, if_neg (by omega)]
  rw [recGetByte_set, if_pos ⟨by omega, by (try simp only [recSetByte_length]); omega⟩]

theorem recGetByte_write64_at5 (l : List Nat) (off v : Nat) (h : off + 8 ≤ l.length)
    (hw : off + 8 ≤ 65536) :
    recGetByte (writeUint64 l off v) (off + 5) = v / 1099511627776 % 256 := by
  unfold writeUint64
  repeat rw [recGetByte_set, if_neg (by omega)]
  rw [recGetByte_set, if_pos ⟨by omega, by (try simp only [recSetByte_length]); omega⟩]

theorem recGetByte_write64_at6 (l : List Nat) (off v : Nat) (h : off + 8 ≤ l.length)
    (hw : off + 8 ≤ 65536) :
    recGetByte (writeUint64 l off v) (off + 6) = v / 281474976710656 % 256 := by
  unfold writeUint64
  repeat rw [recGetByte_set, if_neg (by omega)]
  rw [recGetByte_set, if_pos ⟨by omega, by (try simp only [recSetByte_length]); omega⟩]

theorem recGetByte_write64_at7 (l : List Nat) (off v : Nat) (h : off + 8 ≤ l.length)
    (hw : off + 8 ≤ 65536) :
    recGetByte (writeUint64 l off v) (off + 7) = v / 72057594037927936 % 256 := by
  unfold writeUint64
  rw [recGetByte_set, if_pos ⟨by omega, by (try simp only [recSetByte_length]); omega⟩]

theorem recGetU64_write64 (l : List Nat) (off v : Nat) (h : off + 8 ≤ l.length)
    (hw : off + 8 ≤ 65535) :
    recGetU64 (writeUint64 l off v) off = some (v % 18446744073709551616) := by
  have h0 := recGetByte_write64_at0 l off v h (by omega)
  have h1 := recGetByte_write64_at1 l off v h (by omega)
  have h2 := recGetByte_write64_at2 l off v h (by omega)
  have h3 := recGetByte_write64_at3 l off v h (by omega)
  have h4 := recGetByte_write64_at4 l off v h (by omega)
  have h5 := recGetByte_write64_at5 l off v h (by omega)
  have h6 := recGetByte_write64_at6 l off v h (by omega)
  have h7 := recGetByte_write64_at7 l off v h (by omega)
  unfold recGetU64
  rw [if_pos ⟨by omega, by rw [writeUint64_length]; omega⟩]
  exact congrArg some (by omega)

/-! ### Null-position setter lemmas (used for claims C3 and C4) -/

theorem setLength_length (r : List Nat) (v : Nat) :
    (setLength r v).length = r.length := by
  simp [setLength, recPutU16, recSetByte_length]

theorem setOffset_length (r : List Nat) (p off : Nat) :
    (setOffset r p off).length = r.length := by
  simp [setOffset, recPutU16, recSetByte_length]

theorem recGetU16_setByte_disjoint (l : List Nat) (i v j : Nat)
    (h : j + 2 ≤ i ∨ i < j) :
    recGetU16 (recSetByte l i v) j = recGetU16 l j := by
  simp only [recGetU16, recGetByte_set]
  split_ifs <;> (try simp only [true_and] at *) <;>
    first | exact (‹False›).elim | omega

theorem setUint32_null_core (r : List Nat) (p v : Nat)
    (hL : recGetU16 r 0 = r.length)
    (hp : 6 + 2 * p ≤ r.length)
    (hz : offsetForPosition r p = 0)
    (hr : r.length + 4 ≤ 65535) :
    offsetForPosition (SetUint32 r p v) p = r.length ∧
    recGetU32 (SetUint32 r p v) r.length = some (v % 4294967296) := by
  have hlt : r.length < 65536 := hL ▸ recGetU16_lt r 0
  have hpm : p % 65536 = p := Nat.mod_eq_of_lt (by omega)
  have hidx : (4 + 2 * (p % 65536)) % 65536 = 4 + 2 * p := by
    rw [hpm]; exact Nat.mod_eq_of_lt (by omega)
  have hrl : recLength r = r.length := hL
  simp only [SetUint32, hz, if_pos]
  rw [hrl]
  set d := writeUint32
    (setOffset (setLength r ((r.length + 4) % 65536)) p r.length ++ List.replicate 4 0)
    r.length v with hd
  have hblen : (setOffset (setLength r ((r.length + 4) % 65536)) p r.length).length
      = r.length := by
    rw [setOffset_length, setLength_length]
  refine ⟨?_, ?_⟩
  · unfold offsetForPosition
    rw [hidx, hd]
    rw [recGetU16_write32_lo _ _ _ _ (by omega) (by omega)]
    rw [recGetU16_append_left _ _ _ (by omega)]
    unfold setOffset
    rw [hidx]
    exact recGetU16_putU16_self _ _ _ (by rw [setLength_length]; omega) (by omega)
  · rw [hd, recGetU32_write32 _ _ _ (by simp [hblen]) (by omega)]

theorem setUint64_null_core (r : List Nat) (p v : Nat)
    (hL : recGetU16 r 0 = r.length)
    (hp : 6 + 2 * p ≤ r.length)
    (hz : offsetForPosition r p = 0)
    (hr : r.length + 8 ≤ 65535) :
    offsetForPosition (SetUint64 r p v) p = r.length ∧
    recGetU64 (SetUint64 r p v) r.length = some (v % 18446744073709551616) := by
  have hlt : r.length < 65536 := hL ▸ recGetU16_lt r 0
  have hpm : p % 65536 = p := Nat.mod_eq_of_lt (by omega)
  have hidx : (4 + 2 * (p % 65536)) % 65536 = 4 + 2 * p := by
    rw [hpm]; exact Nat.mod_eq_of_lt (by omega)
  have hrl : recLength r = r.length := hL
  simp only [SetUint64, hz, if_pos]
  rw [hrl]
  set d := writeUint64
    (setOffset (setLength r ((r.length + 8) % 65536)) p r.length ++ List.replicate 8 0)
    r.length v with hd
  have hblen : (setOffset (setLength r ((r.length + 8) % 65536)) p r.length).length
      = r.length := by
    rw [setOffset_length, setLength_length]
  refine ⟨?_, ?_⟩
  · unfold offsetForPosition
    rw [hidx, hd]
    rw [recGetU16_write64_lo _ _ _ _ (by omega) (by omega)]
    rw [recGetU16_append_left _ _ _ (by omega)]
    unfold setOffset
    rw [hidx]
    exact recGetU16_putU16_self _ _ _ (by rw [setLength_length]; omega) (by omega)
  · rw [hd, recGetU64_write64 _ _ _ (by simp [hblen]) (by omega)]

theorem setBool_null_core (r : List Nat) (p : Nat) (b : Bool)
    (hL : recGetU16 r 0 = r.length)
    (hp : 6 + 2 * p ≤ r.length)
    (hz : offsetForPosition r p = 0) :
    offsetForPosition (SetBool r p b) p = r.length ∧
    recGetByte (SetBool r p b) r.length = if b then 1 else 0 := by
  have hlt : r.length < 65536 := hL ▸ recGetU16_lt r 0
  have hpm : p % 65536 = p := Nat.mod_eq_of_lt (by omega)
  have hidx : (4 + 2 * (p % 65536)) % 65536 = 4 + 2 * p := by
    rw [hpm]; exact Nat.mod_eq_of_lt (by omega)
  have hrl : recLength r = r.length := hL
  simp only [SetBool, hz, if_pos]
  rw [hrl]
  set d := writeBool
    (setOffset (setLength r ((r.length + 1) % 65536)) p r.length ++ [0])
    r.length b with hd
  have hblen : (setOffset (setLength r ((r.length + 1) % 65536)) p r.length).length
      = r.length := by
    rw [setOffset_length, setLength_length]
  refine ⟨?_, ?_⟩
  · unfold offsetForPosition
    rw [hidx, hd]
    unfold writeBool
    rw [recGetU16_setByte_disjoint _ _ _ _ (by omega)]
    rw [recGetU16_append_left _ _ _ (by omega)]
    unfold setOffset
    rw [hidx]
    exact recGetU16_putU16_self _ _ _ (by rw [setLength_length]; omega) (by omega)
  · rw [hd]
    unfold writeBool
    rw [recGetByte_set, if_pos ⟨rfl, by simp [hblen]⟩]
    cases b <;> rfl

theorem toInt32_toUint32 (v : Int) (h1 : -2147483648 ≤ v) (h2 : v < 2147483648) :
    toInt32 (toUint32 v) = v := by
  unfold toInt32 toUint32
  split_ifs <;> omega

theorem toInt64_toUint64 (v : Int) (h1 : -9223372036854775808 ≤ v)
    (h2 : v < 9223372036854775808) :
    toInt64 (toUint64 v) = v := by
  unfold toInt64 toUint64
  split_ifs <;> omega

theorem recGetByte_putU16_disjoint (l : List Nat) (i v j : Nat)
    (h : j ≠ i ∧ j ≠ i + 1) :
    recGetByte (recPutU16 l i v) j = recGetByte l j := by
  simp only [recPutU16, recGetByte_set, recSetByte_length]
  split_ifs <;> (try simp only [true_and] at *) <;>
    first | exact (‹False›).elim | omega

theorem recGetU16_copy_lo (src : List Nat) (l : List Nat) (off j : Nat)
    (h : j + 2 ≤ off) :
    recGetU16 (recCopy l off src) j = recGetU16 l j := by
  unfold recGetU16
  rw [recGetByte_copy_lo _ _ _ _ (by omega), recGetByte_copy_lo _ _ _ _ (by omega)]

theorem writeString_fit (r : List Nat) (off : Nat) (s : List Nat)
    (h1 : off + 2 + s.length % 65536 ≤ 65535)
    (h2 : off + 2 + s.length % 65536 ≤ r.length) :
    writeString r off s =
      some (recCopy (recPutU16 r off (s.length % 65536)) (off + 2)
        (s.take (s.length % 65536))) := by
  simp only [writeString, recPutU16]
  rw [Nat.mod_eq_of_lt (show off + 1 < 65536 by omega),
    Nat.mod_eq_of_lt (show off + 2 < 65536 by omega),
    Nat.mod_eq_of_lt (show off + 2 + s.length % 65536 < 65536 by omega)]
  rw [if_pos ⟨by omega, h2⟩]

theorem setString_null_core (r : List Nat) (p : Nat) (s : List Nat)
    (hL : recGetU16 r 0 = r.length)
    (hp : 6 + 2 * p ≤ r.length)
    (hz : offsetForPosition r p = 0)
    (hs : r.length + s.length + 2 ≤ 65535) :
    ∃ d, SetString r p s = some (.ok d) ∧
      offsetForPosition d p = r.length ∧
      recGetU16 d r.length = s.length ∧
      (∀ t, t < s.length → recGetByte d (r.length + 2 + t) = s.getD t 0 % 256) := by
  have hlt : r.length < 65536 := hL ▸ recGetU16_lt r 0
  have hpm : p % 65536 = p := Nat.mod_eq_of_lt (by omega)
  have hidx : (4 + 2 * (p % 65536)) % 65536 = 4 + 2 * p := by
    rw [hpm]; exact Nat.mod_eq_of_lt (by omega)
  have hrl : recLength r = r.length := hL
  have hsm : s.length % 65536 = s.length := Nat.mod_eq_of_lt (by omega)
  have hnb : bytesNeededForString s = s.length + 2 := by
    unfold bytesNeededForString
    omega
  have htake : s.take (s.length % 65536) = s := by
    rw [hsm]; exact List.take_length s
  have hws : writeString (r ++ List.replicate (s.length + 2) 0) r.length s =
      some (recCopy (recPutU16 (r ++ List.replicate (s.length + 2) 0) r.length
        (s.length % 65536)) (r.length + 2) (s.take (s.length % 65536))) :=
    writeString_fit _ _ _ (by omega)
      (by simp only [List.length_append, List.length_replicate]; omega)
  rw [htake, hsm] at hws
  have hplen : (recPutU16 (r ++ List.replicate (s.length + 2) 0) r.length
      s.length).length = r.length + (s.length + 2) := by
    simp only [recPutU16, recSetByte_length, List.length_append,
      List.length_replicate]
  simp only [SetString, hz, if_pos, hrl, hnb, hws]
  refine ⟨_, rfl, ?_, ?_, ?_⟩
  · unfold offsetForPosition
    rw [hidx]
    unfold setLength
    rw [recGetU16_putU16_disjoint _ _ _ _ (by omega)]
    unfold setOffset
    rw [hidx]
    exact recGetU16_putU16_self _ _ _
      (by rw [recCopy_length, hplen]; omega) (by omega)
  · unfold setLength
    rw [recGetU16_putU16_disjoint _ _ _ _ (by omega)]
    unfold setOffset
    rw [hidx, recGetU16_putU16_disjoint _ _ _ _ (by omega)]
    rw [recGetU16_copy_lo _ _ _ _ (by omega)]
    rw [recGetU16_putU16_self _ _ _
      (by simp only [List.length_append, List.length_replicate]; omega) (by omega)]
  · intro t ht
    unfold setLength
    rw [recGetByte_putU16_disjoint _ _ _ _ ⟨by omega, by omega⟩]
    unfold setOffset
    rw [hidx, recGetByte_putU16_disjoint _ _ _ _ ⟨by omega, by omega⟩]
    rw [recGetByte_copy_in _ _ _ _ ht (by rw [hplen]; omega)]

theorem toUint32_lt (v : Int) : toUint32 v < 4294967296 := by
  unfold toUint32; omega

theorem toUint64_lt (v : Int) : toUint64 v < 18446744073709551616 := by
  unfold toUint64; omega

/-- Claim C3 (amended): for every well-formed record (stored length equal to
the physical length, with `uint16` headroom `len + 8 ≤ 65535`), every
position `p` whose offset-table slot lies in the header (`6 + 2p ≤ len`) and
is null, the typed set-then-get round trip returns `(false, v)`
bit-identically for every fixed-width primitive value (uint32, uint64,
int32, int64, float32 and float64 as bit patterns, bool, timestamp as its
`UnixNano` count), and value-equally for every byte string that keeps the
grown record inside the `uint16` range (`len + len(s) + 2 ≤ 65535`) —
including strings containing NUL bytes.  Records and strings past these
bounds are excluded: there Go's `uint16` size and index arithmetic wraps, so
the write corrupts the header bytes or the read's slice bound inverts and
the call panics instead of returning (see the counterexample). -/
theorem claim_C3_set_get_roundtrip (r : List Nat) (p : Nat)
    (hL : recGetU16 r 0 = r.length)
    (hp : 6 + 2 * p ≤ r.length)
    (hz : offsetForPosition r p = 0)
    (hr : r.length + 8 ≤ 65535) :
    (∀ v, v < 4294967296 → GetUint32 (SetUint32 r p v) p = some (false, v)) ∧
    (∀ v, v < 18446744073709551616 →
      GetUint64 (SetUint64 r p v) p = some (false, v)) ∧
    (∀ v : Int, -2147483648 ≤ v → v < 2147483648 →
      GetInt32 (SetInt32 r p v) p = some (false, v)) ∧
    (∀ v : Int, -9223372036854775808 ≤ v → v < 9223372036854775808 →
      GetInt64 (SetInt64 r p v) p = some (false, v)) ∧
    (∀ bits, bits < 4294967296 →
      GetFloat32 (SetFloat32 r p bits) p = some (false, bits)) ∧
    (∀ bits, bits < 18446744073709551616 →
      GetFloat64 (SetFloat64 r p bits) p = some (false, bits)) ∧
    (∀ b : Bool, GetBool (SetBool r p b) p = (false, b)) ∧
    (∀ ns : Int, -9223372036854775808 ≤ ns → ns < 9223372036854775808 →
      GetTime (SetTime r p ns) p = some (false, ns)) ∧
    (∀ s : List Nat, r.length + s.length + 2 ≤ 65535 → (∀ b ∈ s, b < 256) →
      ∃ d, SetString r p s = some (.ok d) ∧ GetString d p = (false, s)) := by
  have hu32 : ∀ v, v < 4294967296 →
      GetUint32 (SetUint32 r p v) p = some (false, v) := by
    intro v hv
    obtain ⟨ho, hval⟩ := setUint32_null_core r p v hL hp hz (by omega)
    simp only [GetUint32, ho]
    rw [if_neg (by omega), hval, Nat.mod_eq_of_lt hv]
    rfl
  have hu64 : ∀ v, v < 18446744073709551616 →
      GetUint64 (SetUint64 r p v) p = some (false, v) := by
    intro v hv
    obtain ⟨ho, hval⟩ := setUint64_null_core r p v hL hp hz (by omega)
    simp only [GetUint64, ho]
    rw [if_neg (by omega), hval, Nat.mod_eq_of_lt hv]
    rfl
  refine ⟨hu32, hu64, ?_, ?_, ?_, ?_, ?_, ?_, ?_⟩
  · intro v h1 h2
    obtain ⟨ho, hval⟩ := setUint32_null_core r p (toUint32 v) hL hp hz (by omega)
    simp only [SetInt32, GetInt32, ho]
    rw [if_neg (by omega), hval, Nat.mod_eq_of_lt (toUint32_lt v)]
    show some (false, toInt32 (toUint32 v)) = some (false, v)
    rw [toInt32_toUint32 v h1 h2]
  · intro v h1 h2
    obtain ⟨ho, hval⟩ := setUint64_null_core r p (toUint64 v) hL hp hz (by omega)
    simp only [SetInt64, GetInt64, ho]
    rw [if_neg (by omega), hval, Nat.mod_eq_of_lt (toUint64_lt v)]
    show some (false, toInt64 (toUint64 v)) = some (false, v)
    rw [toInt64_toUint64 v h1 h2]
  · intro bits hv
    exact hu32 bits hv
  · intro bits hv
    exact hu64 bits hv
  · intro b
    obtain ⟨ho, hval⟩ := setBool_null_core r p b hL hp hz
    simp only [GetBool, ho]
    rw [if_neg (by omega), hval]
    cases b <;> rfl
  · intro ns h1 h2
    obtain ⟨ho, hval⟩ := setUint64_null_core r p (toUint64 ns) hL hp hz (by omega)
    simp only [SetTime, GetTime, ho]
    rw [if_neg (by omega), hval, Nat.mod_eq_of_lt (toUint64_lt ns)]
    show some (false, toInt64 (toUint64 ns)) = some (false, ns)
    rw [toInt64_toUint64 ns h1 h2]
  · intro s hs hb
    obtain ⟨d, hset, ho, hpre, hbytes⟩ := setString_null_core r p s hL hp hz hs
    refine ⟨d, hset, ?_⟩
    simp only [GetString, ho]
    rw [if_neg (by omega)]
    simp only [readString, hpre]
    refine Prod.ext rfl ?_
    apply List.ext_getElem
    · simp
    · intro t h1 h2
      simp only [List.getElem_map, List.getElem_range]
      have htlt : t < s.length := by simpa using h1
      rw [hbytes t htlt]
      rw [List.getD_eq_getElem?_getD, List.getElem?_eq_getElem htlt]
      have : s[t] < 256 := hb s[t] (List.getElem_mem htlt)
      simp [Nat.mod_eq_of_lt this]

theorem bytesNeededForString_repl (n a : Nat) :
    bytesNeededForString (List.replicate n a) = (n % 65536 + 2) % 65536 := by
  unfold bytesNeededForString
  rw [List.length_replicate]

theorem writeString_gate_fail (r : List Nat) (off : Nat) (s : List Nat)
    (h : ¬ ((off + 2) % 65536 ≤ (off + 2 + s.length % 65536) % 65536 ∧
      (off + 2 + s.length % 65536) % 65536 ≤ r.length)) :
    writeString r off s = none := by
  simp only [writeString]
  rw [if_neg h]

/-- Claim C3 (counterexample): a 65534-byte string is a value of the declared
string type (maximum 65535), yet the set-then-get round trip fails for it on
a fresh one-position record: Go computes `uint16(65534) + 2 = 0` bytes to
reserve, so the record is not grown, the two length-prefix stores land out
of range, and the copy's upper slice bound `offset+2+strLen` wraps below the
lower bound — `SetString` panics (`none` in this embedding) instead of
returning, refuting the universally quantified round trip. -/
theorem claim_C3_counterexample :
    SetString (NewRecord 1) 0 (List.replicate 65534 97) = none := by
  have hz : offsetForPosition (NewRecord 1) 0 = 0 := by decide
  have hnb : bytesNeededForString (List.replicate (65534 : Nat) 97) = 0 := by
    rw [bytesNeededForString_repl]
  have hrl : recLength (NewRecord 1) = 6 := by decide
  have hNlen : (NewRecord 1).length = 6 := by decide
  simp only [SetString, hz, if_pos, hnb, hrl]
  rw [List.replicate_zero, List.append_nil]
  rw [writeString_gate_fail _ _ _ (by rw [List.length_replicate, hNlen]; omega)]
  rfl

/-- Claim C3 witness: the round-trip statement applied to a fresh one-position
record, evaluated for a concrete uint32 value. -/
theorem claim_C3_set_get_roundtrip_witness :
    (recGetU16 (NewRecord 1) 0 = (NewRecord 1).length ∧
      6 + 2 * 0 ≤ (NewRecord 1).length ∧
      offsetForPosition (NewRecord 1) 0 = 0 ∧
      (NewRecord 1).length + 8 ≤ 65535) ∧
    GetUint32 (SetUint32 (NewRecord 1) 0 7) 0 = some (false, 7) :=
  ⟨⟨by decide, by decide, by decide, by decide⟩,
    (claim_C3_set_get_roundtrip (NewRecord 1) 0 (by decide) (by decide)
      (by decide) (by decide)).1 7 (by decide)⟩

/-! ## Claim C6 -/

theorem writeString_strLen0 (r : List Nat) (off : Nat) (s : List Nat)
    (h : s.length % 65536 = 0) (hfit : (off + 2) % 65536 ≤ r.length) :
    writeString r off s =
      some (recSetByte (recSetByte r off 0) ((off + 1) % 65536) 0) := by
  simp only [writeString]
  rw [h]
  simp only [Nat.add_zero, Nat.zero_div, List.take_zero]
  rw [if_pos ⟨Nat.le_refl _, hfit⟩]
  rfl

theorem setString_wrap2 (r : List Nat) (p : Nat) (s : List Nat)
    (hz : offsetForPosition r p = 0)
    (hnb : bytesNeededForString s = 2)
    (h0 : s.length % 65536 = 0)
    (hfit : (recLength r + 2) % 65536 ≤ r.length + 2) :
    SetString r p s = some (.ok (setLength (setOffset
      (recSetByte (recSetByte (r ++ List.replicate 2 0) (recLength r) 0)
        ((recLength r + 1) % 65536) 0) p (recLength r))
      ((recLength r + 2) % 65536))) := by
  simp only [SetString, hz, if_pos, hnb]
  rw [writeString_strLen0 _ _ _ h0
    (by simp only [List.length_append, List.length_replicate]; exact hfit)]
  rfl

/-- Claim C6 (code behaviour at the failing input): `SetString` on a null
position with a 65536-byte string does not fail — there is no `StringTooLong`
error anywhere in the source — it returns nil after storing a two-byte
encoding whose length prefix is `uint16(65536) = 0`, i.e. the empty string;
`GetString` then reads back the empty string.  (Lengths 65534 and 65535
additionally make the size computation `uint16(len)+2` wrap below the real
need, inverting the copy's slice bound — a panic in Go.) -/
theorem claim_C6_string_truncation :
    SetString (NewRecord 1) 0 (List.replicate 65536 97) =
      some (.ok [8, 0, 4, 0, 6, 0, 0, 0]) ∧
    GetString [8, 0, 4, 0, 6, 0, 0, 0] 0 = (false, []) := by
  constructor
  · have h0 : (List.replicate (65536 : Nat) 97).length % 65536 = 0 := by
      rw [List.length_replicate]
    have hnb : bytesNeededForString (List.replicate (65536 : Nat) 97) = 2 := by
      rw [bytesNeededForString_repl]
    rw [setString_wrap2 (NewRecord 1) 0 (List.replicate 65536 97)
      (by decide) hnb h0 (by decide)]
    decide
  · decide

/-! ### Accounting lemmas for composite writers (claim C4) -/

/-- The exact (unwrapped) byte count of one primitive encoding: agrees with
`bytesNeededForPrimitive` except that a string counts its true `len + 2`
bytes with no `uint16` wrap. -/
def sizePrim : Value → Nat
  | .vbool _ => 1
  | .vuint _ => 4
  | .vuint32 _ => 4
  | .vint _ => 4
  | .vint32 _ => 4
  | .vfloat32 _ => 4
  | .vuint64 _ => 8
  | .vint64 _ => 8
  | .vfloat64 _ => 8
  | .vtime _ => 8
  | .vstring s => s.length + 2

/-- The exact byte count of a list of primitive encodings. -/
def sizeVals : List Value → Nat
  | [] => 0
  | v :: vs => sizePrim v + sizeVals vs

/-- The exact byte count of an array encoding. -/
def sizeArr (a : ArrayV) : Nat := 3 + sizeVals (a.values.getD [])

/-- The exact byte count of one map value. -/
def sizeMapVal (vt : Nat) : MapVal → Nat
  | .arr a => if vt = ArrayType then sizeArr a else 0
  | .prim v => if vt = ArrayType then 0 else sizePrim v

/-- The exact byte count of a list of map entries. -/
def sizeEntries (vt : Nat) : List (Value × MapVal) → Nat
  | [] => 0
  | e :: es => sizePrim e.1 + sizeMapVal vt e.2 + sizeEntries vt es

/-- The exact byte count of a map encoding. -/
def sizeMap (m : MapV) : Nat := 4 + sizeEntries m.valueType (m.data.getD [])

theorem bytesPrim_eq_sizePrim : ∀ (v : Value), sizePrim v ≤ 65535 →
    bytesNeededForPrimitive v = sizePrim v
  | .vbool _, _ => rfl
  | .vuint _, _ => rfl
  | .vuint32 _, _ => rfl
  | .vint _, _ => rfl
  | .vint32 _, _ => rfl
  | .vfloat32 _, _ => rfl
  | .vuint64 _, _ => rfl
  | .vint64 _, _ => rfl
  | .vfloat64 _, _ => rfl
  | .vtime _, _ => rfl
  | .vstring s, h => by
    simp only [sizePrim] at h
    simp only [bytesNeededForPrimitive, sizePrim]
    unfold bytesNeededForString
    omega

theorem writeString_some_length {r : List Nat} {off : Nat} {s : List Nat}
    {r2 : List Nat} (h : writeString r off s = some r2) :
    r2.length = r.length := by
  simp only [writeString] at h
  by_cases hg : ((off + 2) % 65536 ≤ (off + 2 + s.length % 65536) % 65536 ∧
      (off + 2 + s.length % 65536) % 65536 ≤ r.length)
  · rw [if_pos hg] at h
    obtain rfl := Option.some.inj h
    rw [recCopy_length]
    simp [recSetByte_length]
  · rw [if_neg hg] at h
    exact Option.noConfusion h

theorem writeString_some_frame_lo {r : List Nat} {off : Nat} {s : List Nat}
    {r2 : List Nat} (h : writeString r off s = some r2)
    (hnw : off + 2 + s.length % 65536 ≤ 65535) (j : Nat) (hj : j < off) :
    recGetByte r2 j = recGetByte r j := by
  simp only [writeString] at h
  by_cases hg : ((off + 2) % 65536 ≤ (off + 2 + s.length % 65536) % 65536 ∧
      (off + 2 + s.length % 65536) % 65536 ≤ r.length)
  · rw [if_pos hg] at h
    obtain rfl := Option.some.inj h
    rw [recGetByte_copy_lo _ _ _ _ (by omega)]
    rw [recGetByte_set, if_neg (by omega), recGetByte_set, if_neg (by omega)]
  · rw [if_neg hg] at h
    exact Option.noConfusion h

theorem acct32 (r : List Nat) (off w : Nat) {r2 : List Nat} {off2 : Nat}
    (hok : (some (.ok (writeUint32 r off w, (off + 4) % 65536)) :
      Option (Except RecordError (List Nat × Nat))) = some (.ok (r2, off2)))
    (hb : off + 4 ≤ 65535) :
    r2.length = r.length ∧ off2 = off + 4 ∧
      ∀ j, j < off → recGetByte r2 j = recGetByte r j := by
  have h := Except.ok.inj (Option.some.inj hok)
  have h1 : writeUint32 r off w = r2 := congrArg Prod.fst h
  have h2 : (off + 4) % 65536 = off2 := congrArg Prod.snd h
  refine ⟨by rw [← h1]; exact writeUint32_length r off w, by omega, ?_⟩
  intro j hj
  rw [← h1]
  exact recGetByte_write32_lo r off w j (by omega) hj

theorem acct64 (r : List Nat) (off w : Nat) {r2 : List Nat} {off2 : Nat}
    (hok : (some (.ok (writeUint64 r off w, (off + 8) % 65536)) :
      Option (Except RecordError (List Nat × Nat))) = some (.ok (r2, off2)))
    (hb : off + 8 ≤ 65535) :
    r2.length = r.length ∧ off2 = off + 8 ∧
      ∀ j, j < off → recGetByte r2 j = recGetByte r j := by
  have h := Except.ok.inj (Option.some.inj hok)
  have h1 : writeUint64 r off w = r2 := congrArg Prod.fst h
  have h2 : (off + 8) % 65536 = off2 := congrArg Prod.snd h
  refine ⟨by rw [← h1]; exact writeUint64_length r off w, by omega, ?_⟩
  intro j hj
  rw [← h1]
  exact recGetByte_write64_lo r off w j (by omega) hj

theorem acctBool (r : List Nat) (off : Nat) (b : Bool) {r2 : List Nat} {off2 : Nat}
    (hok : (some (.ok (writeBool r off b, (off + 1) % 65536)) :
      Option (Except RecordError (List Nat × Nat))) = some (.ok (r2, off2)))
    (hb : off + 1 ≤ 65535) :
    r2.length = r.length ∧ off2 = off + 1 ∧
      ∀ j, j < off → recGetByte r2 j = recGetByte r j := by
  have h := Except.ok.inj (Option.some.inj hok)
  have h1 : writeBool r off b = r2 := congrArg Prod.fst h
  have h2 : (off + 1) % 65536 = off2 := congrArg Prod.snd h
  refine ⟨by rw [← h1]; simp [writeBool, recSetByte_length], by omega, ?_⟩
  intro j hj
  rw [← h1]
  unfold writeBool
  rw [recGetByte_set, if_neg (by omega)]

theorem acctString (r : List Nat) (off : Nat) (s : List Nat)
    {r2 : List Nat} {off2 : Nat}
    (hok : (writeString r off s).map
        (fun x => (.ok (x, (off + bytesNeededForString s) % 65536) :
          Except RecordError (List Nat × Nat))) = some (.ok (r2, off2)))
    (hb : off + s.length + 2 ≤ 65535) :
    r2.length = r.length ∧ off2 = off + s.length + 2 ∧
      ∀ j, j < off → recGetByte r2 j = recGetByte r j := by
  have hsm : s.length % 65536 = s.length := Nat.mod_eq_of_lt (by omega)
  have hnb : bytesNeededForString s = s.length + 2 := by
    unfold bytesNeededForString
    omega
  cases hw : writeString r off s with
  | none =>
    rw [hw] at hok
    exact Option.noConfusion hok
  | some x =>
    rw [hw] at hok
    have h := Except.ok.inj (Option.some.inj hok)
    have h1 : x = r2 := congrArg Prod.fst h
    have h2 : (off + bytesNeededForString s) % 65536 = off2 := congrArg Prod.snd h
    refine ⟨by rw [← h1]; exact writeString_some_length hw, ?_, ?_⟩
    · rw [← h2, hnb, Nat.mod_eq_of_lt (by omega)]
      omega
    · intro j hj
      rw [← h1]
      exact writeString_some_frame_lo hw (by omega) j hj

theorem writePrimitive_acct (r : List Nat) (off : Nat) (v : Value) (t : Nat)
    {r2 : List Nat} {off2 : Nat}
    (hok : writePrimitive r off v t = some (.ok (r2, off2)))
    (hb : off + sizePrim v ≤ 65535) :
    r2.length = r.length ∧ off2 = off + sizePrim v ∧
      ∀ j, j < off → recGetByte r2 j = recGetByte r j := by
  cases v with
  | vuint n =>
    simp only [writePrimitive] at hok
    simp only [sizePrim] at hb ⊢
    by_cases ht : t = Uint32Type
    · rw [if_pos ht] at hok
      exact acct32 r off n hok hb
    · rw [if_neg ht] at hok
      exact Except.noConfusion (Option.some.inj hok)
  | vuint32 n =>
    simp only [writePrimitive] at hok
    simp only [sizePrim] at hb ⊢
    by_cases ht : t = Uint32Type
    · rw [if_pos ht] at hok
      exact acct32 r off n hok hb
    · rw [if_neg ht] at hok
      exact Except.noConfusion (Option.some.inj hok)
  | vuint64 n =>
    simp only [writePrimitive] at hok
    simp only [sizePrim] at hb ⊢
    by_cases ht : t = Uint64Type
    · rw [if_pos ht] at hok
      exact acct64 r off n hok hb
    · rw [if_neg ht] at hok
      exact Except.noConfusion (Option.some.inj hok)
  | vint n =>
    simp only [writePrimitive] at hok
    simp only [sizePrim] at hb ⊢
    by_cases ht : t = Int32Type
    · rw [if_pos ht] at hok
      exact acct32 r off (toUint32 n) hok hb
    · rw [if_neg ht] at hok
      exact Except.noConfusion (Option.some.inj hok)
  | vint32 n =>
    simp only [writePrimitive] at hok
    simp only [sizePrim] at hb ⊢
    by_cases ht : t = Int32Type
    · rw [if_pos ht] at hok
      exact acct32 r off (toUint32 n) hok hb
    · rw [if_neg ht] at hok
      exact Except.noConfusion (Option.some.inj hok)
  | vint64 n =>
    simp only [writePrimitive] at hok
    simp only [sizePrim] at hb ⊢
    by_cases ht : t = Int64Type
    · rw [if_pos ht] at hok
      exact acct64 r off (toUint64 n) hok hb
    · rw [if_neg ht] at hok
      exact Except.noConfusion (Option.some.inj hok)
  | vfloat32 bits =>
    simp only [writePrimitive] at hok
    simp only [sizePrim] at hb ⊢
    by_cases ht : t = Float32Type
    · rw [if_pos ht] at hok
      exact acct32 r off bits hok hb
    · rw [if_neg ht] at hok
      exact Except.noConfusion (Option.some.inj hok)
  | vfloat64 bits =>
    simp only [writePrimitive] at hok
    simp only [sizePrim] at hb ⊢
    by_cases ht : t = Float64Type
    · rw [if_pos ht] at hok
      exact acct64 r off bits hok hb
    · rw [if_neg ht] at hok
      exact Except.noConfusion (Option.some.inj hok)
  | vbool b =>
    simp only [writePrimitive] at hok
    simp only [sizePrim] at hb ⊢
    by_cases ht : t = BoolType
    · rw [if_pos ht] at hok
      exact acctBool r off b hok (by omega)
    · rw [if_neg ht] at hok
      exact Except.noConfusion (Option.some.inj hok)
  | vstring s =>
    simp only [writePrimitive] at hok
    simp only [sizePrim] at hb ⊢
    by_cases ht : t = StringType
    · rw [if_pos ht] at hok
      exact acctString r off s hok (by omega)
    · rw [if_neg ht] at hok
      exact Except.noConfusion (Option.some.inj hok)
  | vtime ns =>
    simp only [writePrimitive] at hok
    simp only [sizePrim] at hb ⊢
    by_cases ht : t = TimeType
    · rw [if_pos ht] at hok
      exact acct64 r off (toUint64 ns) hok hb
    · rw [if_neg ht] at hok
      exact Except.noConfusion (Option.some.inj hok)

theorem writeVals_acct : ∀ (vs : List Value) (r : List Nat) (off t : Nat)
    (r2 : List Nat) (off2 : Nat),
    writeVals r off t vs = some (.ok (r2, off2)) → off + sizeVals vs ≤ 65535 →
    r2.length = r.length ∧ off2 = off + sizeVals vs ∧
      ∀ j, j < off → recGetByte r2 j = recGetByte r j := by
  intro vs
  induction vs with
  | nil =>
    intro r off t r2 off2 hok hb
    simp only [writeVals] at hok
    have h := Except.ok.inj (Option.some.inj hok)
    rw [Prod.mk.injEq] at h
    obtain ⟨h1, h2⟩ := h
    simp only [sizeVals]
    exact ⟨by rw [← h1], by omega, fun j hj => by rw [← h1]⟩
  | cons v vs ih =>
    intro r off t r2 off2 hok hb
    simp only [writeVals] at hok
    cases hw : writePrimitive r off v t with
    | none =>
      rw [hw] at hok
      exact Option.noConfusion hok
    | some ex =>
      cases ex with
      | error er =>
        rw [hw] at hok
        have hok2 : (some (Except.error er) :
            Option (Except RecordError (List Nat × Nat))) = some (.ok (r2, off2)) := hok
        exact Except.noConfusion (Option.some.inj hok2)
      | ok x =>
        obtain ⟨x1, x2⟩ := x
        rw [hw] at hok
        have hok2 : writeVals x1 x2 t vs = some (.ok (r2, off2)) := hok
        have hb1 : off + sizePrim v ≤ 65535 := by
          simp only [sizeVals] at hb; omega
        obtain ⟨hl1, ho1, hf1⟩ := writePrimitive_acct r off v t hw hb1
        have hb2 : x2 + sizeVals vs ≤ 65535 := by
          simp only [sizeVals] at hb; omega
        obtain ⟨hl2, ho2, hf2⟩ := ih x1 x2 t r2 off2 hok2 hb2
        refine ⟨by rw [hl2, hl1], by simp only [sizeVals]; omega, ?_⟩
        intro j hj
        rw [hf2 j (by omega), hf1 j hj]

theorem writeArr_acct (r : List Nat) (off : Nat) (a : ArrayV)
    (r2 : List Nat) (off2 : Nat)
    (hok : writeArr r off a = some (.ok (r2, off2)))
    (hb : off + sizeArr a ≤ 65535) :
    r2.length = r.length ∧ off2 = off + sizeArr a ∧
      ∀ j, j < off → recGetByte r2 j = recGetByte r j := by
  have hsz : off + 3 + sizeVals (a.values.getD []) ≤ 65535 := by
    simp only [sizeArr] at hb; omega
  simp only [writeArr] at hok
  rw [Nat.mod_eq_of_lt (by omega : off + 1 < 65536)] at hok
  rw [Nat.mod_eq_of_lt (by omega : off + 1 + 1 < 65536)] at hok
  rw [Nat.mod_eq_of_lt (by omega : off + 1 + 1 + 1 < 65536)] at hok
  obtain ⟨hl, ho, hf⟩ := writeVals_acct (a.values.getD []) _ (off + 1 + 1 + 1)
    a.elementType r2 off2 hok (by omega)
  refine ⟨?_, by simp only [sizeArr]; omega, ?_⟩
  · rw [hl]
    simp [recSetByte_length]
  · intro j hj
    rw [hf j (by omega)]
    rw [recGetByte_set, if_neg (by omega), recGetByte_set, if_neg (by omega),
      recGetByte_set, if_neg (by omega)]

theorem writeEntries_acct : ∀ (es : List (Value × MapVal)) (r : List Nat)
    (off kt vt : Nat) (r2 : List Nat) (off2 : Nat),
    writeEntries r off kt vt es = some (.ok (r2, off2)) →
    off + sizeEntries vt es ≤ 65535 →
    r2.length = r.length ∧ off2 = off + sizeEntries vt es ∧
      ∀ j, j < off → recGetByte r2 j = recGetByte r j := by
  intro es
  induction es with
  | nil =>
    intro r off kt vt r2 off2 hok hb
    simp only [writeEntries] at hok
    have h := Except.ok.inj (Option.some.inj hok)
    rw [Prod.mk.injEq] at h
    obtain ⟨h1, h2⟩ := h
    simp only [sizeEntries]
    exact ⟨by rw [← h1], by omega, fun j hj => by rw [← h1]⟩
  | cons e es ih =>
    intro r off kt vt r2 off2 hok hb
    simp only [writeEntries] at hok
    cases hw : writePrimitive r off e.1 kt with
    | none =>
      rw [hw] at hok
      exact Option.noConfusion hok
    | some ex =>
      cases ex with
      | error er =>
        rw [hw] at hok
        have hok2 : (some (Except.error er) :
            Option (Except RecordError (List Nat × Nat))) = some (.ok (r2, off2)) := hok
        exact Except.noConfusion (Option.some.inj hok2)
      | ok x =>
        obtain ⟨x1, x2⟩ := x
        rw [hw] at hok
        have hb1 : off + sizePrim e.1 ≤ 65535 := by
          simp only [sizeEntries] at hb; omega
        obtain ⟨hl1, ho1, hf1⟩ := writePrimitive_acct r off e.1 kt hw hb1
        cases he : e.2 with
        | arr a =>
          rw [he] at hok
          by_cases hvt : vt = ArrayType
          · simp only [if_pos hvt] at hok
            have hsv : sizeMapVal vt e.2 = sizeArr a := by
              rw [he]; simp [sizeMapVal, hvt]
            cases hwa : writeArr x1 x2 a with
            | none =>
              rw [hwa] at hok
              exact Option.noConfusion hok
            | some ey =>
              cases ey with
              | error er =>
                rw [hwa] at hok
                have hok2 : (some (Except.error er) :
                    Option (Except RecordError (List Nat × Nat))) =
                    some (.ok (r2, off2)) := hok
                exact Except.noConfusion (Option.some.inj hok2)
              | ok y =>
                obtain ⟨y1, y2⟩ := y
                rw [hwa] at hok
                have hok3 : writeEntries y1 y2 kt vt es = some (.ok (r2, off2)) := hok
                have hb2 : x2 + sizeArr a ≤ 65535 := by
                  simp only [sizeEntries] at hb; omega
                obtain ⟨hl2, ho2, hf2⟩ := writeArr_acct x1 x2 a y1 y2 hwa hb2
                have hb3 : y2 + sizeEntries vt es ≤ 65535 := by
                  simp only [sizeEntries] at hb; omega
                obtain ⟨hl3, ho3, hf3⟩ := ih y1 y2 kt vt r2 off2 hok3 hb3
                refine ⟨by rw [hl3, hl2, hl1], by simp only [sizeEntries]; omega, ?_⟩
                intro j hj
                rw [hf3 j (by omega), hf2 j (by omega), hf1 j hj]
          · simp only [if_neg hvt] at hok
            exact Except.noConfusion (Option.some.inj hok)
        | prim pv =>
          rw [he] at hok
          by_cases hvt : vt = ArrayType
          · simp only [if_pos hvt] at hok
            exact Except.noConfusion (Option.some.inj hok)
          · simp only [if_neg hvt] at hok
            have hsv : sizeMapVal vt e.2 = sizePrim pv := by
              rw [he]; simp [sizeMapVal, hvt]
            cases hwp : writePrimitive x1 x2 pv vt with
            | none =>
              rw [hwp] at hok
              exact Option.noConfusion hok
            | some ey =>
              cases ey with
              | error er =>
                rw [hwp] at hok
                have hok2 : (some (Except.error er) :
                    Option (Except RecordError (List Nat × Nat))) =
                    some (.ok (r2, off2)) := hok
                exact Except.noConfusion (Option.some.inj hok2)
              | ok y =>
                obtain ⟨y1, y2⟩ := y
                rw [hwp] at hok
                have hok3 : writeEntries y1 y2 kt vt es = some (.ok (r2, off2)) := hok
                have hb2 : x2 + sizePrim pv ≤ 65535 := by
                  simp only [sizeEntries] at hb; omega
                obtain ⟨hl2, ho2, hf2⟩ := writePrimitive_acct x1 x2 pv vt hwp hb2
                have hb3 : y2 + sizeEntries vt es ≤ 65535 := by
                  simp only [sizeEntries] at hb; omega
                obtain ⟨hl3, ho3, hf3⟩ := ih y1 y2 kt vt r2 off2 hok3 hb3
                refine ⟨by rw [hl3, hl2, hl1], by simp only [sizeEntries]; omega, ?_⟩
                intro j hj
                rw [hf3 j (by omega), hf2 j (by omega), hf1 j hj]

theorem writeMapGo_acct (r : List Nat) (off : Nat) (m : MapV)
    (r2 : List Nat) (off2 : Nat)
    (hok : writeMapGo r off m = some (.ok (r2, off2)))
    (hb : off + sizeMap m ≤ 65535) :
    r2.length = r.length ∧ off2 = off + sizeMap m ∧
      ∀ j, j < off → recGetByte r2 j = recGetByte r j := by
  have hsz : off + 4 + sizeEntries m.valueType (m.data.getD []) ≤ 65535 := by
    simp only [sizeMap] at hb; omega
  simp only [writeMapGo] at hok
  rw [Nat.mod_eq_of_lt (by omega : off + 1 < 65536)] at hok
  rw [Nat.mod_eq_of_lt (by omega : off + 1 + 1 < 65536)] at hok
  rw [Nat.mod_eq_of_lt (by omega : off + 1 + 1 + 1 < 65536)] at hok
  rw [Nat.mod_eq_of_lt (by omega : off + 1 + 1 + 1 + 1 < 65536)] at hok
  obtain ⟨hl, ho, hf⟩ := writeEntries_acct (m.data.getD []) _ (off + 1 + 1 + 1 + 1)
    m.keyType m.valueType r2 off2 hok (by omega)
  refine ⟨?_, by simp only [sizeMap]; omega, ?_⟩
  · rw [hl]
    simp [recSetByte_length]
  · intro j hj
    rw [hf j (by omega)]
    rw [recGetByte_set, if_neg (by omega), recGetByte_set, if_neg (by omega),
      recGetByte_set, if_neg (by omega), recGetByte_set, if_neg (by omega)]

theorem foldl_mod_eq_sizeVals (vs : List Value) : ∀ acc, acc + sizeVals vs ≤ 65535 →
    vs.foldl (fun a v => (a + bytesNeededForPrimitive v) % 65536) acc =
      acc + sizeVals vs := by
  induction vs with
  | nil => intro acc h; simp [sizeVals]
  | cons v vs ih =>
    intro acc h
    simp only [sizeVals] at h
    simp only [List.foldl_cons]
    rw [bytesPrim_eq_sizePrim v (by omega)]
    rw [Nat.mod_eq_of_lt (by omega : acc + sizePrim v < 65536)]
    rw [ih _ (by omega)]
    simp only [sizeVals]
    omega

theorem bytesArr_eq_sizeArr (a : ArrayV) (hb : sizeArr a ≤ 65535) :
    bytesNeededForArray a = sizeArr a := by
  unfold bytesNeededForArray
  rw [foldl_mod_eq_sizeVals _ 0 (by simp only [sizeArr] at hb; omega)]
  simp only [sizeArr] at hb ⊢
  omega

theorem mapValSizeGo_eq (vt : Nat) (v : MapVal) (hb : sizeMapVal vt v ≤ 65535) :
    mapValSizeGo vt v = sizeMapVal vt v := by
  cases v with
  | arr a =>
    simp only [mapValSizeGo, sizeMapVal] at hb ⊢
    split_ifs at hb ⊢ with h
    · exact bytesArr_eq_sizeArr a hb
    · rfl
  | prim pv =>
    simp only [mapValSizeGo, sizeMapVal] at hb ⊢
    split_ifs at hb ⊢ with h
    · rfl
    · exact bytesPrim_eq_sizePrim pv hb

theorem foldl_mod_eq_sizeEntries (vt : Nat) (es : List (Value × MapVal)) :
    ∀ acc, acc + sizeEntries vt es ≤ 65535 →
    es.foldl (fun a e =>
        (a + (bytesNeededForPrimitive e.1 + mapValSizeGo vt e.2) % 65536) % 65536)
      acc = acc + sizeEntries vt es := by
  induction es with
  | nil => intro acc h; simp [sizeEntries]
  | cons e es ih =>
    intro acc h
    simp only [sizeEntries] at h
    simp only [List.foldl_cons]
    rw [bytesPrim_eq_sizePrim e.1 (by omega), mapValSizeGo_eq vt e.2 (by omega)]
    rw [Nat.mod_eq_of_lt
      (by omega : sizePrim e.1 + sizeMapVal vt e.2 < 65536)]
    rw [Nat.mod_eq_of_lt
      (by omega : acc + (sizePrim e.1 + sizeMapVal vt e.2) < 65536)]
    rw [ih _ (by omega)]
    simp only [sizeEntries]
    omega

theorem bytesMap_eq_sizeMap (m : MapV) (hb : sizeMap m ≤ 65535) :
    bytesNeededForMap m = sizeMap m := by
  unfold bytesNeededForMap
  rw [foldl_mod_eq_sizeEntries _ _ 0 (by simp only [sizeMap] at hb; omega)]
  simp only [sizeMap] at hb ⊢
  omega

theorem setUint32_len_inv (r : List Nat) (p v : Nat)
    (hL : recGetU16 r 0 = r.length)
    (hp : 6 + 2 * p ≤ r.length)
    (hoff : offsetForPosition r p = 0 ∨
      (4 ≤ offsetForPosition r p ∧ offsetForPosition r p + 8 ≤ 65535))
    (hr : r.length + 8 ≤ 65535) :
    recGetU16 (SetUint32 r p v) 0 = (SetUint32 r p v).length := by
  have hlt : r.length < 65536 := hL ▸ recGetU16_lt r 0
  have hpm : p % 65536 = p := Nat.mod_eq_of_lt (by omega)
  have hidx : (4 + 2 * (p % 65536)) % 65536 = 4 + 2 * p := by
    rw [hpm]; exact Nat.mod_eq_of_lt (by omega)
  have hrl : recLength r = r.length := hL
  rcases hoff with hz | ⟨hge4, hge8⟩
  · simp only [SetUint32, hz, if_pos]
    rw [hrl]
    rw [writeUint32_length, List.length_append, setOffset_length, setLength_length,
      List.length_replicate]
    rw [recGetU16_write32_lo _ _ _ _ (by omega) (by omega)]
    rw [recGetU16_append_left _ _ _ (by rw [setOffset_length, setLength_length]; omega)]
    unfold setOffset
    rw [hidx, recGetU16_putU16_disjoint _ _ _ _ (by omega)]
    unfold setLength
    rw [recGetU16_putU16_self _ _ _ (by omega) (by omega)]
    omega
  · have hnz : offsetForPosition r p ≠ 0 := by omega
    simp only [SetUint32, if_neg hnz]
    rw [writeUint32_length, recGetU16_write32_lo _ _ _ _ (by omega) (by omega), hL]

theorem setUint64_len_inv (r : List Nat) (p v : Nat)
    (hL : recGetU16 r 0 = r.length)
    (hp : 6 + 2 * p ≤ r.length)
    (hoff : offsetForPosition r p = 0 ∨
      (4 ≤ offsetForPosition r p ∧ offsetForPosition r p + 8 ≤ 65535))
    (hr : r.length + 8 ≤ 65535) :
    recGetU16 (SetUint64 r p v) 0 = (SetUint64 r p v).length := by
  have hlt : r.length < 65536 := hL ▸ recGetU16_lt r 0
  have hpm : p % 65536 = p := Nat.mod_eq_of_lt (by omega)
  have hidx : (4 + 2 * (p % 65536)) % 65536 = 4 + 2 * p := by
    rw [hpm]; exact Nat.mod_eq_of_lt (by omega)
  have hrl : recLength r = r.length := hL
  rcases hoff with hz | ⟨hge4, hge8⟩
  · simp only [SetUint64, hz, if_pos]
    rw [hrl]
    rw [writeUint64_length, List.length_append, setOffset_length, setLength_length,
      List.length_replicate]
    rw [recGetU16_write64_lo _ _ _ _ (by omega) (by omega)]
    rw [recGetU16_append_left _ _ _ (by rw [setOffset_length, setLength_length]; omega)]
    unfold setOffset
    rw [hidx, recGetU16_putU16_disjoint _ _ _ _ (by omega)]
    unfold setLength
    rw [recGetU16_putU16_self _ _ _ (by omega) (by omega)]
    omega
  · have hnz : offsetForPosition r p ≠ 0 := by omega
    simp only [SetUint64, if_neg hnz]
    rw [writeUint64_length, recGetU16_write64_lo _ _ _ _ (by omega) (by omega), hL]

theorem setBool_len_inv (r : List Nat) (p : Nat) (b : Bool)
    (hL : recGetU16 r 0 = r.length)
    (hp : 6 + 2 * p ≤ r.length)
    (hoff : offsetForPosition r p = 0 ∨
      (4 ≤ offsetForPosition r p ∧ offsetForPosition r p + 8 ≤ 65535))
    (hr : r.length + 8 ≤ 65535) :
    recGetU16 (SetBool r p b) 0 = (SetBool r p b).length := by
  have hlt : r.length < 65536 := hL ▸ recGetU16_lt r 0
  have hpm : p % 65536 = p := Nat.mod_eq_of_lt (by omega)
  have hidx : (4 + 2 * (p % 65536)) % 65536 = 4 + 2 * p := by
    rw [hpm]; exact Nat.mod_eq_of_lt (by omega)
  have hrl : recLength r = r.length := hL
  rcases hoff with hz | ⟨hge4, hge8⟩
  · simp only [SetBool, hz, if_pos]
    rw [hrl]
    simp only [writeBool]
    rw [recSetByte_length, List.length_append, setOffset_length, setLength_length,
      List.length_singleton]
    rw [recGetU16_setByte_disjoint _ _ _ _ (by omega)]
    rw [recGetU16_append_left _ _ _ (by rw [setOffset_length, setLength_length]; omega)]
    unfold setOffset
    rw [hidx, recGetU16_putU16_disjoint _ _ _ _ (by omega)]
    unfold setLength
    rw [recGetU16_putU16_self _ _ _ (by omega) (by omega)]
    omega
  · have hnz : offsetForPosition r p ≠ 0 := by omega
    simp only [SetBool, if_neg hnz, writeBool]
    rw [recSetByte_length, recGetU16_setByte_disjoint _ _ _ _ (by omega), hL]

theorem setString_len_inv (r : List Nat) (p : Nat) (s : List Nat) (d : List Nat)
    (hL : recGetU16 r 0 = r.length)
    (hp : 6 + 2 * p ≤ r.length)
    (hoff : offsetForPosition r p = 0 ∨
      (4 ≤ offsetForPosition r p ∧ offsetForPosition r p + 8 ≤ 65535))
    (hs : r.length + s.length + 2 ≤ 65535)
    (hok : SetString r p s = some (.ok d)) :
    recGetU16 d 0 = d.length := by
  have hlt : r.length < 65536 := hL ▸ recGetU16_lt r 0
  have hpm : p % 65536 = p := Nat.mod_eq_of_lt (by omega)
  have hidx : (4 + 2 * (p % 65536)) % 65536 = 4 + 2 * p := by
    rw [hpm]; exact Nat.mod_eq_of_lt (by omega)
  have hrl : recLength r = r.length := hL
  have hnb : bytesNeededForString s = s.length + 2 := by
    unfold bytesNeededForString
    omega
  rcases hoff with hz | ⟨hge4, hge8⟩
  · have hws := writeString_fit (r ++ List.replicate (s.length + 2) 0) r.length s
      (by omega)
      (by simp only [List.length_append, List.length_replicate]; omega)
    simp only [SetString, hz, if_pos, hrl, hnb, hws] at hok
    obtain rfl := Except.ok.inj (Option.some.inj hok)
    have hClen : (recCopy (recPutU16 (r ++ List.replicate (s.length + 2) 0) r.length
        (s.length % 65536)) (r.length + 2) (s.take (s.length % 65536))).length =
        r.length + (s.length + 2) := by
      rw [recCopy_length]
      simp only [recPutU16, recSetByte_length, List.length_append,
        List.length_replicate]
    rw [setLength_length, setOffset_length, hClen]
    unfold setLength
    rw [recGetU16_putU16_self _ _ _ (by rw [setOffset_length, hClen]; omega) (by omega)]
    omega
  · have hnz : offsetForPosition r p ≠ 0 := by omega
    simp only [SetString, if_neg hnz] at hok
    by_cases hcl : recGetU16 r (offsetForPosition r p) < s.length % 65536
    · rw [if_pos hcl] at hok
      exact Except.noConfusion (Option.some.inj hok)
    · rw [if_neg hcl] at hok
      cases hw : writeString r (offsetForPosition r p) s with
      | none =>
        rw [hw] at hok
        exact Option.noConfusion hok
      | some x =>
        rw [hw] at hok
        obtain rfl := Except.ok.inj (Option.some.inj hok)
        have hgate : (offsetForPosition r p + 2) % 65536 ≤
            (offsetForPosition r p + 2 + s.length % 65536) % 65536 ∧
            (offsetForPosition r p + 2 + s.length % 65536) % 65536 ≤ r.length := by
          by_contra hg
          rw [writeString_gate_fail _ _ _ hg] at hw
          exact Option.noConfusion hw
        have hnw : offsetForPosition r p + 2 + s.length % 65536 ≤ 65535 := by
          obtain ⟨hg1, hg2⟩ := hgate
          omega
        rw [writeString_some_length hw]
        have hg0 := writeString_some_frame_lo hw hnw 0 (by omega)
        have hg1 := writeString_some_frame_lo hw hnw (0 + 1) (by omega)
        unfold recGetU16
        rw [hg0, hg1]
        exact hL

theorem setArray_len_inv (r : List Nat) (p : Nat) (a : ArrayV) (d : List Nat)
    (hL : recGetU16 r 0 = r.length)
    (hp : 6 + 2 * p ≤ r.length)
    (hoff : offsetForPosition r p = 0 ∨
      (4 ≤ offsetForPosition r p ∧ offsetForPosition r p + 8 ≤ 65535))
    (hb1 : r.length + sizeArr a ≤ 65535)
    (hb2 : offsetForPosition r p + sizeArr a ≤ 65535)
    (hok : SetArray r p a = some (.ok d)) :
    recGetU16 d 0 = d.length := by
  have hlt : r.length < 65536 := hL ▸ recGetU16_lt r 0
  have hpm : p % 65536 = p := Nat.mod_eq_of_lt (by omega)
  have hidx : (4 + 2 * (p % 65536)) % 65536 = 4 + 2 * p := by
    rw [hpm]; exact Nat.mod_eq_of_lt (by omega)
  have hrl : recLength r = r.length := hL
  have hba : bytesNeededForArray a = sizeArr a := bytesArr_eq_sizeArr a (by omega)
  simp only [SetArray] at hok
  by_cases hA : a.elementType = ArrayType
  · rw [if_pos hA] at hok
    exact Except.noConfusion (Option.some.inj hok)
  rw [if_neg hA] at hok
  by_cases hM : a.elementType = MapType
  · rw [if_pos hM] at hok
    exact Except.noConfusion (Option.some.inj hok)
  rw [if_neg hM] at hok
  cases hv : a.values with
  | none =>
    simp only [hv] at hok
    obtain rfl := Except.ok.inj (Option.some.inj hok)
    exact hL
  | some vs =>
    simp only [hv] at hok
    rcases hoff with hz | ⟨hge4, hge8⟩
    · rw [if_pos hz] at hok
      rw [hrl, hba] at hok
      cases hw : writeArr (r ++ List.replicate (sizeArr a) 0) r.length a with
      | none =>
        rw [hw] at hok
        exact Option.noConfusion hok
      | some ex =>
        cases ex with
        | error er =>
          rw [hw] at hok
          simp only [Option.map, Except.map] at hok
          exact Except.noConfusion (Option.some.inj hok)
        | ok x =>
          obtain ⟨x1, x2⟩ := x
          rw [hw] at hok
          simp only [Option.map, Except.map] at hok
          obtain rfl := Except.ok.inj (Option.some.inj hok)
          obtain ⟨hl, ho, hf⟩ := writeArr_acct _ r.length a x1 x2 hw (by omega)
          have hx1 : x1.length = r.length + sizeArr a := by
            rw [hl, List.length_append, List.length_replicate]
          rw [setLength_length, setOffset_length, hx1]
          unfold setLength
          rw [recGetU16_putU16_self _ _ _ (by rw [setOffset_length, hx1]; omega)
            (by omega)]
          omega
    · rw [if_neg (by omega : ¬ offsetForPosition r p = 0)] at hok
      by_cases hT : recGetByte r (offsetForPosition r p + 2) ≠ a.elementType
      · rw [if_pos hT] at hok
        exact Except.noConfusion (Option.some.inj hok)
      rw [if_neg hT] at hok
      by_cases hO : recGetU16 r (offsetForPosition r p) < vs.length % 65536
      · rw [if_pos hO] at hok
        exact Except.noConfusion (Option.some.inj hok)
      rw [if_neg hO] at hok
      cases hw : writeArr r (offsetForPosition r p) a with
      | none =>
        rw [hw] at hok
        exact Option.noConfusion hok
      | some ex =>
        cases ex with
        | error er =>
          rw [hw] at hok
          simp only [Option.map, Except.map] at hok
          exact Except.noConfusion (Option.some.inj hok)
        | ok x =>
          obtain ⟨x1, x2⟩ := x
          rw [hw] at hok
          simp only [Option.map, Except.map] at hok
          obtain rfl := Except.ok.inj (Option.some.inj hok)
          obtain ⟨hl, ho, hf⟩ := writeArr_acct _ _ a x1 x2 hw (by omega)
          have hg : recGetU16 x1 0 = recGetU16 r 0 := by
            unfold recGetU16
            rw [hf 0 (by omega), hf (0 + 1) (by omega)]
          rw [hg, hL, hl]

theorem setMap_len_inv (r : List Nat) (p : Nat) (m : MapV) (d : List Nat)
    (hL : recGetU16 r 0 = r.length)
    (hp : 6 + 2 * p ≤ r.length)
    (hoff : offsetForPosition r p = 0 ∨
      (4 ≤ offsetForPosition r p ∧ offsetForPosition r p + 8 ≤ 65535))
    (hb1 : r.length + sizeMap m ≤ 65535)
    (hb2 : offsetForPosition r p + sizeMap m ≤ 65535)
    (hok : SetMap r p m = some (.ok d)) :
    recGetU16 d 0 = d.length := by
  have hlt : r.length < 65536 := hL ▸ recGetU16_lt r 0
  have hpm : p % 65536 = p := Nat.mod_eq_of_lt (by omega)
  have hidx : (4 + 2 * (p % 65536)) % 65536 = 4 + 2 * p := by
    rw [hpm]; exact Nat.mod_eq_of_lt (by omega)
  have hrl : recLength r = r.length := hL
  have hbm : bytesNeededForMap m = sizeMap m := bytesMap_eq_sizeMap m (by omega)
  simp only [SetMap] at hok
  by_cases hK : m.keyType = ArrayType
  · rw [if_pos hK] at hok
    exact Except.noConfusion (Option.some.inj hok)
  rw [if_neg hK] at hok
  by_cases hK2 : m.keyType = MapType
  · rw [if_pos hK2] at hok
    exact Except.noConfusion (Option.some.inj hok)
  rw [if_neg hK2] at hok
  by_cases hV : m.valueType = MapType
  · rw [if_pos hV] at hok
    exact Except.noConfusion (Option.some.inj hok)
  rw [if_neg hV] at hok
  cases hv : m.data with
  | none =>
    simp only [hv] at hok
    obtain rfl := Except.ok.inj (Option.some.inj hok)
    exact hL
  | some es =>
    simp only [hv] at hok
    rcases hoff with hz | ⟨hge4, hge8⟩
    · rw [if_pos hz] at hok
      rw [hrl, hbm] at hok
      cases hw : writeMapGo (r ++ List.replicate (sizeMap m) 0) r.length m with
      | none =>
        rw [hw] at hok
        exact Option.noConfusion hok
      | some ex =>
        cases ex with
        | error er =>
          rw [hw] at hok
          simp only [Option.map, Except.map] at hok
          exact Except.noConfusion (Option.some.inj hok)
        | ok x =>
          obtain ⟨x1, x2⟩ := x
          rw [hw] at hok
          simp only [Option.map, Except.map] at hok
          obtain rfl := Except.ok.inj (Option.some.inj hok)
          obtain ⟨hl, ho, hf⟩ := writeMapGo_acct _ r.length m x1 x2 hw (by omega)
          have hx1 : x1.length = r.length + sizeMap m := by
            rw [hl, List.length_append, List.length_replicate]
          rw [setLength_length, setOffset_length, hx1]
          unfold setLength
          rw [recGetU16_putU16_self _ _ _ (by rw [setOffset_length, hx1]; omega)
            (by omega)]
          omega
    · rw [if_neg (by omega : ¬ offsetForPosition r p = 0)] at hok
      by_cases hT : recGetByte r (offsetForPosition r p + 2) ≠ m.keyType
      · rw [if_pos hT] at hok
        exact Except.noConfusion (Option.some.inj hok)
      rw [if_neg hT] at hok
      by_cases hT2 : recGetByte r (offsetForPosition r p + 3) ≠ m.valueType
      · rw [if_pos hT2] at hok
        exact Except.noConfusion (Option.some.inj hok)
      rw [if_neg hT2] at hok
      by_cases hO : recGetU16 r (offsetForPosition r p) < es.length % 65536
      · rw [if_pos hO] at hok
        exact Except.noConfusion (Option.some.inj hok)
      rw [if_neg hO] at hok
      cases hw : writeMapGo r (offsetForPosition r p) m with
      | none =>
        rw [hw] at hok
        exact Option.noConfusion hok
      | some ex =>
        cases ex with
        | error er =>
          rw [hw] at hok
          simp only [Option.map, Except.map] at hok
          exact Except.noConfusion (Option.some.inj hok)
        | ok x =>
          obtain ⟨x1, x2⟩ := x
          rw [hw] at hok
          simp only [Option.map, Except.map] at hok
          obtain rfl := Except.ok.inj (Option.some.inj hok)
          obtain ⟨hl, ho, hf⟩ := writeMapGo_acct _ _ m x1 x2 hw (by omega)
          have hg : recGetU16 x1 0 = recGetU16 r 0 := by
            unfold recGetU16
            rw [hf 0 (by omega), hf (0 + 1) (by omega)]
          rw [hg, hL, hl]

/-- A 65535-byte record whose stored length field is 65535 and whose offset
table is all zeros (every position null): the largest record the
stored-length invariant admits.  Go reaches records of this size, e.g. by
`NewRecord(2)` followed by `SetString(1, s)` with a 65525-byte string. -/
def rec65535 : List Nat := recPutU16 (List.replicate 65535 0) 0 65535

theorem recGetByte_replicate_zero (n i : Nat) :
    recGetByte (List.replicate n 0) i = 0 := by
  unfold recGetByte
  rw [List.getD_eq_getElem?_getD, List.getElem?_replicate]
  split_ifs <;> rfl

theorem rec65535_length : rec65535.length = 65535 := by
  unfold rec65535
  simp only [recPutU16, recSetByte_length]
  rw [List.length_replicate]

theorem rec65535_L : recGetU16 rec65535 0 = 65535 := by
  unfold rec65535
  exact recGetU16_putU16_self _ _ _ (by rw [List.length_replicate]; omega) (by omega)

theorem rec65535_null0 : offsetForPosition rec65535 0 = 0 := by
  have hidx : (4 + 2 * ((0 : Nat) % 65536)) % 65536 = 4 := by decide
  unfold offsetForPosition rec65535
  rw [hidx, recGetU16_putU16_disjoint _ _ _ _ (by omega)]
  unfold recGetU16
  rw [recGetByte_replicate_zero, recGetByte_replicate_zero]

/-- Claim C4 (counterexample): on the largest record the stored-length
invariant admits — 65535 bytes with stored length 65535 and position 0 null,
a size Go reaches e.g. by `NewRecord(2)` followed by `SetString(1, s)` with a
65525-byte string — `SetBool(0, true)` completes in Go without error or
panic (the appended byte makes the buffer 65536 bytes long and every store
lands in range), yet `setLength(offset + 1)` wraps in `uint16` and stores
L = 0, so after the successful setter the stored length field no longer
equals the buffer length, refuting the claim as stated. -/
theorem claim_C4_counterexample :
    recGetU16 rec65535 0 = rec65535.length ∧
    offsetForPosition rec65535 0 = 0 ∧
    recLength (SetBool rec65535 0 true) = 0 ∧
    (SetBool rec65535 0 true).length = 65536 := by
  have hrl : recLength rec65535 = 65535 := rec65535_L
  have hidx : (4 + 2 * ((0 : Nat) % 65536)) % 65536 = 4 := by decide
  refine ⟨by rw [rec65535_L, rec65535_length], rec65535_null0, ?_, ?_⟩
  · simp only [SetBool, rec65535_null0, if_pos]
    rw [hrl]
    unfold recLength writeBool
    rw [recGetU16_setByte_disjoint _ _ _ _ (by omega)]
    rw [recGetU16_append_left _ _ _
      (by rw [setOffset_length, setLength_length, rec65535_length]; omega)]
    unfold setOffset
    rw [hidx, recGetU16_putU16_disjoint _ _ _ _ (by omega)]
    unfold setLength
    rw [recGetU16_putU16_self _ _ _ (by rw [rec65535_length]; omega) (by omega)]
  · simp only [SetBool, rec65535_null0, if_pos]
    rw [hrl]
    unfold writeBool
    rw [recSetByte_length, List.length_append, setOffset_length, setLength_length,
      rec65535_length, List.length_singleton]

/-- Claim C4 (amended): after every successful setter call (`SetUint32`,
`SetUint64`, `SetInt32`, `SetInt64`, `SetFloat32`, `SetFloat64`, `SetBool`,
`SetTime`, `SetString`, `SetArray`, `SetMap`) on a record whose stored
2-byte length field equals its buffer length, the stored length field of the
result again equals the result's buffer length — provided the record and the
write stay inside the `uint16` range: the record has headroom
`len + 8 ≤ 65535` (resp. `len + size ≤ 65535` for variable-size values), and
the position is either null or stores an in-range data offset.  Past those
bounds the invariant genuinely fails in Go (see the counterexample): the
wrapped `setLength` silently stores a too-small length. -/
theorem claim_C4_length_invariant (r : List Nat) (p : Nat)
    (hL : recGetU16 r 0 = r.length)
    (hp : 6 + 2 * p ≤ r.length)
    (hoff : offsetForPosition r p = 0 ∨
      (4 ≤ offsetForPosition r p ∧ offsetForPosition r p + 8 ≤ 65535))
    (hr : r.length + 8 ≤ 65535) :
    (∀ v, recLength (SetUint32 r p v) = (SetUint32 r p v).length) ∧
    (∀ v, recLength (SetUint64 r p v) = (SetUint64 r p v).length) ∧
    (∀ v, recLength (SetInt32 r p v) = (SetInt32 r p v).length) ∧
    (∀ v, recLength (SetInt64 r p v) = (SetInt64 r p v).length) ∧
    (∀ bits, recLength (SetFloat32 r p bits) = (SetFloat32 r p bits).length) ∧
    (∀ bits, recLength (SetFloat64 r p bits) = (SetFloat64 r p bits).length) ∧
    (∀ b, recLength (SetBool r p b) = (SetBool r p b).length) ∧
    (∀ ns, recLength (SetTime r p ns) = (SetTime r p ns).length) ∧
    (∀ s d, r.length + s.length + 2 ≤ 65535 → SetString r p s = some (.ok d) →
      recLength d = d.length) ∧
    (∀ a d, r.length + sizeArr a ≤ 65535 →
      offsetForPosition r p + sizeArr a ≤ 65535 →
      SetArray r p a = some (.ok d) → recLength d = d.length) ∧
    (∀ m d, r.length + sizeMap m ≤ 65535 →
      offsetForPosition r p + sizeMap m ≤ 65535 →
      SetMap r p m = some (.ok d) → recLength d = d.length) :=
  ⟨fun v => setUint32_len_inv r p v hL hp hoff hr,
    fun v => setUint64_len_inv r p v hL hp hoff hr,
    fun v => setUint32_len_inv r p (toUint32 v) hL hp hoff hr,
    fun v => setUint64_len_inv r p (toUint64 v) hL hp hoff hr,
    fun bits => setUint32_len_inv r p bits hL hp hoff hr,
    fun bits => setUint64_len_inv r p bits hL hp hoff hr,
    fun b => setBool_len_inv r p b hL hp hoff hr,
    fun ns => setUint64_len_inv r p (toUint64 ns) hL hp hoff hr,
    fun s d hs hok => setString_len_inv r p s d hL hp hoff hs hok,
    fun a d h1 h2 hok => setArray_len_inv r p a d hL hp hoff h1 h2 hok,
    fun m d h1 h2 hok => setMap_len_inv r p m d hL hp hoff h1 h2 hok⟩

/-- Witness for claim C4: on `NewRecord 1` the invariant hypotheses hold, and
the uint32, string and array conjuncts apply at concrete values. -/
theorem claim_C4_length_invariant_witness :
    recLength (SetUint32 (NewRecord 1) 0 7) = (SetUint32 (NewRecord 1) 0 7).length ∧
    (SetString (NewRecord 1) 0 [104, 105] =
        some (.ok [10, 0, 4, 0, 6, 0, 2, 0, 104, 105]) ∧
      recLength [10, 0, 4, 0, 6, 0, 2, 0, 104, 105] =
        ([10, 0, 4, 0, 6, 0, 2, 0, 104, 105] : List Nat).length) ∧
    (SetArray (NewRecord 1) 0 ⟨Int32Type, some [Value.vint32 7]⟩ =
        some (.ok [13, 0, 4, 0, 6, 0, 1, 0, 105, 7, 0, 0, 0]) ∧
      recLength [13, 0, 4, 0, 6, 0, 1, 0, 105, 7, 0, 0, 0] =
        ([13, 0, 4, 0, 6, 0, 1, 0, 105, 7, 0, 0, 0] : List Nat).length) := by
  have h := claim_C4_length_invariant (NewRecord 1) 0 (by decide) (by decide)
    (Or.inl (by decide)) (by decide)
  refine ⟨h.1 7, ⟨by decide, ?_⟩, ⟨by decide, ?_⟩⟩
  · exact h.2.2.2.2.2.2.2.2.1 [104, 105] [10, 0, 4, 0, 6, 0, 2, 0, 104, 105]
      (by decide) (by decide)
  · exact h.2.2.2.2.2.2.2.2.2.1 ⟨Int32Type, some [Value.vint32 7]⟩
      [13, 0, 4, 0, 6, 0, 1, 0, 105, 7, 0, 0, 0] (by decide) (by decide) (by decide)

/-! ## Claim C7 -/

/-- Claim C7 (counterexample): the record produced by `NewRecord(1)` followed
by `SetUint32(0, 10)` is not the byte sequence the claim states; its
header-length field holds `04 00`, not `06 00`. -/
theorem claim_C7_counterexample :
    SetUint32 (NewRecord 1) 0 10 = [10, 0, 4, 0, 6, 0, 10, 0, 0, 0] ∧
    ¬ SetUint32 (NewRecord 1) 0 10 = [10, 0, 6, 0, 6, 0, 10, 0, 0, 0] := by
  decide

/-- Claim C7 (amended): for a record created with `NewRecord(1)`, calling
`SetUint32(0, 10)` yields a record of exactly 10 bytes whose contents are, in
order: length bytes `0A 00`, header-length bytes `04 00` (the header length is
`2 + 2N = 4`), offset-table bytes `06 00`, and value bytes `0A 00 00 00`; and
`GetUint32(0)` then returns `(isNull = false, 10)`. -/
theorem claim_C7_fresh_uint32_record :
    SetUint32 (NewRecord 1) 0 10 = [10, 0, 4, 0, 6, 0, 10, 0, 0, 0] ∧
    (SetUint32 (NewRecord 1) 0 10).length = 10 ∧
    recLength (SetUint32 (NewRecord 1) 0 10) = 10 ∧
    GetUint32 (SetUint32 (NewRecord 1) 0 10) 0 = some (false, 10) := by
  decide

/-! ## Claim C5 -/

/-- Claim C5: overwriting a stored string of length `n` with a longer string
`s` (of length below 65536, the range of Go string lengths representable in
the two-byte prefix) fails with `WriteOverflowError{available: n, required:
len(s)}`, and the record is unchanged (the error is returned before any byte
is written, and in this embedding an error result carries no new record);
concretely, after `newRecord(1); setString(0, "hello")`, the call
`setString(0, "world!")` returns the overflow error with available 5 and
required 6. -/
theorem claim_C5_string_overflow :
    (∀ (r : List Nat) (p : Nat) (s : List Nat) (n : Nat),
        offsetForPosition r p ≠ 0 →
        recGetU16 r (offsetForPosition r p) = n →
        n < s.length → s.length < 65536 →
        SetString r p s = some (.error (.writeOverflow n s.length))) ∧
    (SetString (NewRecord 1) 0 [104, 101, 108, 108, 111] = some (.ok recHello) ∧
      SetString recHello 0 [119, 111, 114, 108, 100, 33] =
        some (.error (.writeOverflow 5 6))) := by
  constructor
  · intro r p s n hoff hcur hlt hlen
    unfold SetString
    rw [if_neg hoff, hcur, Nat.mod_eq_of_lt hlen, if_pos hlt]
  · exact ⟨recHello_built, by decide⟩

/-- Claim C5 witness: the general overflow statement applied to the concrete
record holding the five-byte string. -/
theorem claim_C5_string_overflow_witness :
    (offsetForPosition recHello 0 ≠ 0 ∧
      recGetU16 recHello (offsetForPosition recHello 0) = 5 ∧
      5 < ([119, 111, 114, 108, 100, 33] : List Nat).length ∧
      ([119, 111, 114, 108, 100, 33] : List Nat).length < 65536) ∧
    SetString recHello 0 [119, 111, 114, 108, 100, 33] =
      some (.error (.writeOverflow 5 6)) :=
  ⟨⟨by decide, by decide, by decide, by decide⟩,
    claim_C5_string_overflow.1 recHello 0 [119, 111, 114, 108, 100, 33] 5
      (by decide) (by decide) (by decide) (by decide)⟩

/-! ## Claim C1 -/

/-- Claim C1 (code behaviour at the failing input): appending two pages to a
fresh file returns the consecutive page numbers 0 and 1 and no error, but the
in-memory `NumPages` afterwards is 1, not 2: the source increments `NumPages`
once per call instead of once per appended page. -/
theorem claim_C1_appendPages_increment :
    (AppendPages (DatabaseFile.mk 0 [])
        [List.replicate 8192 0, List.replicate 8192 0]).1.NumPages = 1 ∧
    (AppendPages (DatabaseFile.mk 0 [])
        [List.replicate 8192 0, List.replicate 8192 0]).2.1 = [0, 1] ∧
    (AppendPages (DatabaseFile.mk 0 [])
        [List.replicate 8192 0, List.replicate 8192 0]).2.2 = none := by
  decide

/-! ## Claim C8 -/

/-- Claim C8 (counterexample): the duplicated draft page implementation in
`internal/storage/page.go` writes `numSlots` big-endian, so for the value 258
the byte at offset 0 is 1, not the little-endian low byte 2 that the claim
requires of every page implementation. -/
theorem claim_C8_counterexample :
    pgGetByte (PageDraft.setNumSlots pageZero 258) 0 = 1 ∧
    ¬ pgGetByte (PageDraft.setNumSlots pageZero 258) 0 = 258 % 256 := by
  decide

/-- Claim C8 (amended): the part_008 page implementation stores `numSlots`
(bytes 0-1), `freeOffset` (bytes 2-3) and each 8-byte slot entry little-endian
(least significant byte first), while the duplicated draft implementation in
`internal/storage/page.go` stores the same fields big-endian. -/
theorem claim_C8_page_endianness (p : Page) (v s w : Nat)
    (hv : v < 65536) (hs : s < 8192) (hw : w < 18446744073709551616) :
    (pgGetByte (setNumSlots p v) 0 = v % 256 ∧
      pgGetByte (setNumSlots p v) 1 = v / 256) ∧
    (pgGetByte (setFreeOffset p v) 2 = v % 256 ∧
      pgGetByte (setFreeOffset p v) 3 = v / 256) ∧
    (pgGetByte (setSlot p s w) (4 + 8 * s) = w % 256 ∧
      pgGetByte (setSlot p s w) (4 + 8 * s + 1) = w / 256 % 256 ∧
      pgGetByte (setSlot p s w) (4 + 8 * s + 2) = w / 65536 % 256 ∧
      pgGetByte (setSlot p s w) (4 + 8 * s + 3) = w / 16777216 % 256 ∧
      pgGetByte (setSlot p s w) (4 + 8 * s + 4) = w / 4294967296 % 256 ∧
      pgGetByte (setSlot p s w) (4 + 8 * s + 5) = w / 1099511627776 % 256 ∧
      pgGetByte (setSlot p s w) (4 + 8 * s + 6) = w / 281474976710656 % 256 ∧
      pgGetByte (setSlot p s w) (4 + 8 * s + 7) = w / 72057594037927936) ∧
    (pgGetByte (PageDraft.setNumSlots p v) 0 = v / 256 ∧
      pgGetByte (PageDraft.setNumSlots p v) 1 = v % 256) ∧
    (pgGetByte (PageDraft.setFreeOffset p v) 2 = v / 256 ∧
      pgGetByte (PageDraft.setFreeOffset p v) 3 = v % 256) ∧
    (pgGetByte (PageDraft.setSlot p s w) (4 + 8 * s) = w / 72057594037927936 ∧
      pgGetByte (PageDraft.setSlot p s w) (4 + 8 * s + 7) = w % 256) := by
  have hidx : (4 + 8 * (s % 65536)) % 65536 = 4 + 8 * s := by
    rw [Nat.mod_eq_of_lt (by omega : s < 65536)]
    exact Nat.mod_eq_of_lt (by omega)
  refine ⟨⟨?_, ?_⟩, ⟨?_, ?_⟩, ⟨?_, ?_, ?_, ?_, ?_, ?_, ?_, ?_⟩, ⟨?_, ?_⟩,
    ⟨?_, ?_⟩, ⟨?_, ?_⟩⟩
  · have h := pgPutU16_byte0 p 0 v; simp only [setNumSlots]; omega
  · have h := pgPutU16_byte1 p 0 v; norm_num at h; simp only [setNumSlots]; omega
  · have h := pgPutU16_byte0 p 2 v; simp only [setFreeOffset]; omega
  · have h := pgPutU16_byte1 p 2 v; norm_num at h; simp only [setFreeOffset]; omega
  · have h := pgPutU64_byte0 p (4 + 8 * s) w; simp only [setSlot, hidx]; omega
  · have h := pgPutU64_byte1 p (4 + 8 * s) w; simp only [setSlot, hidx]; omega
  · have h := pgPutU64_byte2 p (4 + 8 * s) w; simp only [setSlot, hidx]; omega
  · have h := pgPutU64_byte3 p (4 + 8 * s) w; simp only [setSlot, hidx]; omega
  · have h := pgPutU64_byte4 p (4 + 8 * s) w; simp only [setSlot, hidx]; omega
  · have h := pgPutU64_byte5 p (4 + 8 * s) w; simp only [setSlot, hidx]; omega
  · have h := pgPutU64_byte6 p (4 + 8 * s) w; simp only [setSlot, hidx]; omega
  · have h := pgPutU64_byte7 p (4 + 8 * s) w; simp only [setSlot, hidx]; omega
  · have h := pgPutU16BE_byte0 p 0 v; simp only [PageDraft.setNumSlots]; omega
  · have h := pgPutU16BE_byte1 p 0 v; norm_num at h; simp only [PageDraft.setNumSlots]; omega
  · have h := pgPutU16BE_byte0 p 2 v; simp only [PageDraft.setFreeOffset]; omega
  · have h := pgPutU16BE_byte1 p 2 v; norm_num at h; simp only [PageDraft.setFreeOffset]; omega
  · have h := pgPutU64BE_byte0 p (4 + 8 * s) w
    simp only [PageDraft.setSlot, hidx]; omega
  · have h := pgPutU64BE_byte7 p (4 + 8 * s) w
    simp only [PageDraft.setSlot, hidx]; omega

/-- Claim C8 witness: the little-endian statement evaluated for `numSlots`
value 258 on the zero page. -/
theorem claim_C8_page_endianness_witness :
    (258 < 65536 ∧ 1 < 8192 ∧ 511 < 18446744073709551616) ∧
    pgGetByte (setNumSlots pageZero 258) 0 = 258 % 256 :=
  ⟨⟨by decide, by decide, by decide⟩,
    (claim_C8_page_endianness pageZero 258 1 511 (by decide) (by decide)
      (by decide)).1.1⟩

/-! ## Claim C10 -/

/-- Claim C10: for every page and every slot number `s` below `numSlots` (with
the slot entry inside the page, which every real slot array satisfies),
`DeleteRecord(s)` unconditionally writes the tombstone value 0 into the 8-byte
slot entry, leaves every byte outside that entry unchanged, and is
idempotent. -/
theorem deleteRecord_apply (p : Page) (s : Nat) (h2 : 4 + 8 * s + 8 ≤ 8192)
    (j : Nat) :
    DeleteRecord p s j = if 4 + 8 * s ≤ j ∧ j < 4 + 8 * s + 8 then 0 else p j := by
  have hidx : (4 + 8 * (s % 65536)) % 65536 = 4 + 8 * s := by
    rw [Nat.mod_eq_of_lt (by omega : s < 65536)]
    exact Nat.mod_eq_of_lt (by omega)
  simp only [DeleteRecord, setSlot, hidx, pgPutU64, pgSetByte]
  split_ifs <;> first | rfl | omega

theorem claim_C10_deleteRecord_frame (p : Page) (s : Nat)
    (h1 : s < getNumSlots p) (h2 : 4 + 8 * s + 8 ≤ 8192) :
    (∀ j, j < 4 + 8 * s ∨ 4 + 8 * s + 8 ≤ j → DeleteRecord p s j = p j) ∧
    (∀ m, m < 8 → pgGetByte (DeleteRecord p s) (4 + 8 * s + m) = 0) ∧
    (∀ j, DeleteRecord (DeleteRecord p s) s j = DeleteRecord p s j) := by
  refine ⟨?_, ?_, ?_⟩
  · intro j hj
    rw [deleteRecord_apply p s h2 j, if_neg (by omega)]
  · intro m hm
    rw [pgGetByte, deleteRecord_apply p s h2, if_pos (by omega)]
  · intro j
    rw [deleteRecord_apply (DeleteRecord p s) s h2 j, deleteRecord_apply p s h2 j]
    split_ifs with h <;> rfl

/-! ## Claim C2 -/

theorem pgGetU16_putU16_self (p : Page) (i v : Nat) (hv : v < 65536) :
    pgGetU16 (pgPutU16 p i v) i = v := by
  have h0 := pgPutU16_byte0 p i v
  have h1 := pgPutU16_byte1 p i v
  unfold pgGetU16
  omega

theorem pgGetU16_putU16_disjoint (p : Page) (i v j : Nat)
    (h : j + 2 ≤ i ∨ i + 2 ≤ j) :
    pgGetU16 (pgPutU16 p i v) j = pgGetU16 p j := by
  simp only [pgGetU16, pgPutU16, pgSetByte, pgGetByte]
  split_ifs <;> omega

theorem pgGetU16_copy_below (l : List Nat) (p : Page) (off j : Nat)
    (h : j + 2 ≤ off) :
    pgGetU16 (pgCopy p off l) j = pgGetU16 p j := by
  unfold pgGetU16 pgGetByte
  rw [pgCopy_apply_of_lt _ _ _ _ (by omega), pgCopy_apply_of_lt _ _ _ _ (by omega)]

theorem recLength_rec24 : recLength rec24 = 24 := by decide

/-- The page state `AddRecord` produces when adding `rec24` to a page whose
free offset is `8192 - 24*k`. -/
def addedPage (p : Page) (k : Nat) : Page :=
  setFreeOffset (addSlot (pgCopy p (8168 - 24 * k) (rec24.take 24)) (8168 - 24 * k))
    (8168 - 24 * k)

theorem addRecord_step_eq (p : Page) (k : Nat) (hk : k ≤ 254)
    (hn : getNumSlots p = k) (hf : getFreeOffset p = 8192 - 24 * k) :
    AddRecord p rec24 = .ok (k, addedPage p k) := by
  have e1 : u16sub (8192 - 24 * k) 24 = 8168 - 24 * k := by unfold u16sub; omega
  have e2 : ((4 + 8 * k) % 65536 + 8) % 65536 = 12 + 8 * k := by omega
  have e3 : 8192 - 24 * k - (8168 - 24 * k) = 24 := by omega
  simp only [AddRecord, addedPage, recLength_rec24, hn, hf, e1, e2, e3]
  rw [if_neg (by omega)]

theorem addedPage_numSlots (p : Page) (k : Nat) (hk : k ≤ 254)
    (hn : getNumSlots p = k) : getNumSlots (addedPage p k) = k + 1 := by
  unfold getNumSlots at hn
  unfold addedPage setFreeOffset addSlot setNumSlots getNumSlots
  rw [pgGetU16_putU16_disjoint _ _ _ _ (by omega)]
  rw [pgGetU16_putU16_self _ _ _ (Nat.mod_lt _ (by omega))]
  rw [pgGetU16_copy_below _ _ _ _ (by omega)]
  omega

theorem addedPage_freeOffset (p : Page) (k : Nat) (hk : k ≤ 254) :
    getFreeOffset (addedPage p k) = 8192 - 24 * (k + 1) := by
  unfold addedPage setFreeOffset getFreeOffset
  rw [pgGetU16_putU16_self _ _ _ (by omega)]
  omega

theorem iterAdd_ok : ∀ (n j : Nat) (p : Page), j + n ≤ 255 →
    getNumSlots p = j → getFreeOffset p = 8192 - 24 * j →
    ∃ q, iterAddRecord p rec24 n = .ok q ∧
      getNumSlots q = j + n ∧ getFreeOffset q = 8192 - 24 * (j + n) := by
  intro n
  induction n with
  | zero =>
    intro j p h hn hf
    exact ⟨p, rfl, by omega, by omega⟩
  | succ n ih =>
    intro j p h hn hf
    have step := addRecord_step_eq p j (by omega) hn hf
    have h1 := addedPage_numSlots p j (by omega) hn
    have h2 := addedPage_freeOffset p j (by omega)
    obtain ⟨q, hq, hqn, hqf⟩ := ih (j + 1) (addedPage p j) (by omega) h1 h2
    refine ⟨q, ?_, by omega, by omega⟩
    rw [iterAddRecord, step]
    simpa [Except.bind] using hq

theorem addRecord_full (q : Page) (hn : getNumSlots q = 255)
    (hf : getFreeOffset q = 2072) :
    AddRecord q rec24 = .error (.pageFull 20 24) := by
  have e1 : u16sub 2072 24 = 2048 := by unfold u16sub; omega
  have e2 : ((4 + 8 * 255) % 65536 + 8) % 65536 = 2052 := by norm_num
  have e3 : u16sub 2072 2052 = 20 := by unfold u16sub; omega
  simp only [AddRecord, recLength_rec24, hn, hf, e1, e2, e3]
  rw [if_pos (by omega)]

/-- Success projection for iterated page additions. -/
def addsSucceed (e : Except PageError Page) : Bool :=
  match e with
  | .ok _ => true
  | .error _ => false

theorem iterAdd_split (r : List Nat) : ∀ (m n : Nat) (p : Page),
    iterAddRecord p r (m + n) =
      (iterAddRecord p r m).bind fun q => iterAddRecord q r n := by
  intro m
  induction m with
  | zero =>
    intro n p
    simp [iterAddRecord, Except.bind]
  | succ m ih =>
    intro n p
    have e : m + 1 + n = (m + n) + 1 := by omega
    rw [e]
    simp only [iterAddRecord]
    cases h : AddRecord p r with
    | error e => simp [Except.bind]
    | ok x => simp [Except.bind, ih]

theorem iterAdd_256 :
    iterAddRecord NewPage rec24 256 = .error (.pageFull 20 24) := by
  obtain ⟨q, hq, hqn, hqf⟩ :=
    iterAdd_ok 255 0 NewPage (by omega) (by decide) (by decide)
  have hqn2 : getNumSlots q = 255 := by omega
  have hqf2 : getFreeOffset q = 2072 := by omega
  rw [show (256 : Nat) = 255 + 1 from rfl, iterAdd_split rec24 255 1 NewPage, hq]
  show iterAddRecord q rec24 1 = _
  simp only [iterAddRecord]
  rw [addRecord_full q hqn2 hqf2]
  simp [Except.bind]

/-- Claim C2 (counterexample): after 255 successful additions of the 24-byte
record, the 256th `AddRecord` does fail, but with `available = 20`, not the
`available = 0` the claim requires. -/
theorem claim_C2_counterexample :
    ¬ iterAddRecord NewPage rec24 256 = .error (.pageFull 0 24) := by
  rw [iterAdd_256]
  simp

/-- Claim C2 (amended): for a fresh page and the 24-byte one-position record
`rec24` (holding the 16-byte test string), 255 consecutive `AddRecord` calls
all succeed, and the 256th fails with `PageFullError` carrying
`available = freeOffset - newHeaderEnd = 2072 - 2052 = 20` and `needed = 24`,
leaving the page unchanged (the error is returned before any write). -/
theorem claim_C2_page_fill :
    addsSucceed (iterAddRecord NewPage rec24 255) = true ∧
    iterAddRecord NewPage rec24 256 = .error (.pageFull 20 24) := by
  constructor
  · obtain ⟨q, hq, -, -⟩ :=
      iterAdd_ok 255 0 NewPage (by omega) (by decide) (by decide)
    rw [hq]
    rfl
  · exact iterAdd_256

/-! ## Claim C9 -/

/-- The write log the `AppendPages` loop is expected to produce: each page in
order, at `uint32` offsets advancing by `PageSize` from the starting offset. -/
def expectedLog (offset : Nat) : List (List Nat) → List (Nat × List Nat)
  | [] => []
  | page :: rest => (offset, page) :: expectedLog ((offset + PageSize) % 4294967296) rest

theorem appendLoop_snd (pages : List (List Nat)) :
    ∀ (f : DatabaseFile) (offset base i : Nat),
      (appendLoop f offset base i pages).2 =
        (List.range pages.length).map
          (fun k => (base + (i + k) % 4294967296) % 4294967296) := by
  induction pages with
  | nil => intro f offset base i; rfl
  | cons page rest ih =>
    intro f offset base i
    rw [appendLoop]
    simp only [List.length_cons, List.range_succ_eq_map, List.map_cons, List.map_map,
      List.cons_eq_cons]
    constructor
    · omega
    · rw [ih]
      apply List.map_congr_left
      intro k _
      simp only [Function.comp]
      omega

theorem appendLoop_NumPages (pages : List (List Nat)) :
    ∀ (f : DatabaseFile) (offset base i : Nat),
      (appendLoop f offset base i pages).1.NumPages = f.NumPages := by
  induction pages with
  | nil => intro f offset base i; rfl
  | cons page rest ih => intro f offset base i; rw [appendLoop]; exact ih _ _ _ _

theorem appendLoop_writes (pages : List (List Nat)) :
    ∀ (f : DatabaseFile) (offset base i : Nat),
      (appendLoop f offset base i pages).1.writes =
        f.writes ++ expectedLog offset pages := by
  induction pages with
  | nil => intro f offset base i; simp [appendLoop, expectedLog]
  | cons page rest ih =>
    intro f offset base i
    rw [appendLoop, expectedLog, ih]
    simp

/-- Claim C9: `AppendPages` returns `FileFullError` exactly when the in-memory
`NumPages` equals `MaxPagesPerFile` (262144) at entry; when `NumPages` is
below the limit, every page in the argument list is written at its sequential
offset, the returned numbers are `NumPages + uint32(i)`, and no error is
returned, even when the pages written take the file past the limit. -/
theorem claim_C9_appendPages_fileFull (f : DatabaseFile) (pages : List (List Nat)) :
    ((AppendPages f pages).2.2 = some .fileFull ↔ f.NumPages = MaxPagesPerFile) ∧
    (f.NumPages < MaxPagesPerFile →
      (AppendPages f pages).2.1 =
        (List.range pages.length).map
          (fun k => (f.NumPages + k % 4294967296) % 4294967296) ∧
      (AppendPages f pages).2.2 = none ∧
      (AppendPages f pages).1.writes =
        f.writes ++ expectedLog ((6 + f.NumPages * PageSize) % 4294967296) pages) := by
  unfold AppendPages
  by_cases h : f.NumPages = MaxPagesPerFile
  · rw [if_pos h]
    refine ⟨by simp [h], fun hlt => absurd h (by omega)⟩
  · rw [if_neg h]
    refine ⟨by simp [h], fun hlt => ?_⟩
    simp only [appendLoop_snd, appendLoop_writes]
    refine ⟨?_, trivial, trivial⟩
    apply List.map_congr_left
    intro k _
    omega

/-- Claim C9 witness: a file one page short of the limit accepts an append of
two pages — taking it past `MaxPagesPerFile` — with no error. -/
theorem claim_C9_appendPages_fileFull_witness :
    262143 < MaxPagesPerFile ∧
    ((AppendPages (DatabaseFile.mk 262143 [])
        [List.replicate 8192 1, List.replicate 8192 2]).2.1 =
      (List.range ([List.replicate 8192 1, List.replicate 8192 2] :
          List (List Nat)).length).map
        (fun k => (262143 + k % 4294967296) % 4294967296) ∧
      (AppendPages (DatabaseFile.mk 262143 [])
        [List.replicate 8192 1, List.replicate 8192 2]).2.2 = none ∧
      (AppendPages (DatabaseFile.mk 262143 [])
        [List.replicate 8192 1, List.replicate 8192 2]).1.writes =
        [] ++ expectedLog ((6 + 262143 * PageSize) % 4294967296)
          [List.replicate 8192 1, List.replicate 8192 2]) :=
  ⟨by decide,
    (claim_C9_appendPages_fileFull (DatabaseFile.mk 262143 [])
      [List.replicate 8192 1, List.replicate 8192 2]).2 (by decide)⟩

/-- Claim C10 witness: deleting slot 0 of a page whose `numSlots` is 1 zeroes
the first slot-entry byte. -/
theorem claim_C10_deleteRecord_frame_witness :
    (0 < getNumSlots (setNumSlots pageZero 1) ∧ 4 + 8 * 0 + 8 ≤ 8192) ∧
    pgGetByte (DeleteRecord (setNumSlots pageZero 1) 0) (4 + 8 * 0 + 0) = 0 :=
  ⟨⟨by decide, by decide⟩,
    (claim_C10_deleteRecord_frame (setNumSlots pageZero 1) 0 (by decide)
      (by decide)).2.1 0 (by decide)⟩

end Kyadb
